import Mathlib

/-!
Shallow embedding of the gemkeep import pipeline (src-tauri/src/import and
src-tauri/src/photos), together with proofs about the behaviour its
specification claims.

Conventions of the embedding:
  - chrono DateTime values are modelled as Int seconds; the chrono Duration
    num_seconds().unsigned_abs() of a whole-second difference is Int.natAbs.
  - Rust PathBuf values are modelled as a (dir, stem, ext) record; file_stem
    is the stem component and parent is the dir component.  Comparisons of
    path display strings in the source are modelled as equality of these
    records (display is injective on valid unicode paths).
  - Rust sort_by_key is a stable sort; it is modelled by insertionSort with a
    total preorder, which is also stable, so both compute the same list.
  - fallible or panicking code is modelled with Option / Except; a Rust
    panic is the error case of Except.
-/

open List

/-- PhotoFormat from photos/model.rs: the two supported photo kinds. -/
inductive PhotoFormat where
  | jpeg : PhotoFormat
  | raw : PhotoFormat
deriving DecidableEq, Repr

/-- Model of a filesystem path: parent directory, file stem and extension.
    Paths are compared componentwise. -/
structure PathM where
  dir : String
  stem : String
  ext : String
deriving DecidableEq, Repr

/-- ScannedFile from photos/model.rs: the intermediate per-file record used
    during the pipeline. capture_time is in seconds (Int). -/
structure ScannedFile where
  path : PathM
  format : PhotoFormat
  capture_time : Option Int
  camera_model : Option String
  lens : Option String
  orientation : Option Nat
  base_name : String
  dir : String
deriving DecidableEq, Repr

/-- LogicalGroup from import/pairs.rs: up to one jpeg and one raw file. -/
structure LogicalGroup where
  jpeg : Option ScannedFile
  raw : Option ScannedFile
  is_pair : Bool
deriving DecidableEq, Repr

/-- LogicalGroup::representative: the jpeg member if present, else the raw
    member.  The source unwraps (panics) when both are absent; groups built
    by detect_pairs always have a member, so the embedding returns an Option
    and the none case is unreachable downstream. -/
def representative (g : LogicalGroup) : Option ScannedFile :=
  g.jpeg.or g.raw

/-- LogicalGroup::capture_time: the representative's capture time. -/
def capture_time (g : LogicalGroup) : Option Int :=
  (representative g).bind (fun f => f.capture_time)

/-- The (parent directory, lowercased base name) key used by detect_pairs. -/
def group_key (f : ScannedFile) : String × String :=
  (f.dir, f.base_name)

/-- The bucket of all input files sharing one (dir, base_name) key.  The
    source accumulates buckets in a HashMap; contents of the bucket for a key
    are the input files with that key, in input order. -/
def bucket (files : List ScannedFile) (k : String × String) : List ScannedFile :=
  files.filter (fun f => decide (group_key f = k))

/-- pairs.rs single_group: wrap one file as an unpaired LogicalGroup. -/
def single_group (f : ScannedFile) : LogicalGroup :=
  if f.format = PhotoFormat.jpeg then
    { jpeg := some f, raw := none, is_pair := false }
  else
    { jpeg := none, raw := some f, is_pair := false }

/-- pairs.rs make_pair: two same-key files form a pair when exactly one is a
    jpeg and one is a raw; otherwise both become singletons. -/
def make_pair (members : List ScannedFile) : List LogicalGroup :=
  let parts := members.partition (fun f => decide (f.format = PhotoFormat.jpeg))
  match parts.1, parts.2 with
  | [j], [r] => [{ jpeg := some j, raw := some r, is_pair := true }]
  | js, rs => (js ++ rs).map single_group

/-- pairs.rs resolve_group: dispatch a bucket by its size. -/
def resolve_group (members : List ScannedFile) : List LogicalGroup :=
  match members with
  | [] => []
  | [f] => [single_group f]
  | [f1, f2] => make_pair [f1, f2]
  | _ => members.map single_group

/-- pairs.rs detect_pairs: group the files by (dir, base_name) and resolve
    each bucket.  The HashMap iteration order of the source is arbitrary; the
    embedding fixes the key order as the deduplicated key list, which yields
    the same multiset of groups. -/
def detect_pairs (files : List ScannedFile) : List LogicalGroup :=
  ((files.map group_key).dedup).flatMap (fun k => resolve_group (bucket files k))

/-- Rust Ord ordering on Option capture times: None sorts before Some, and
    Some values compare by the inner Int. -/
def time_le (a b : Option Int) : Bool :=
  match a, b with
  | none, _ => true
  | some _, none => false
  | some x, some y => decide (x ≤ y)

/-- The sort relation used by assign_stacks (sort_by_key on capture_time). -/
def time_rel (a b : LogicalGroup) : Prop :=
  time_le (capture_time a) (capture_time b) = true

instance : DecidableRel time_rel := fun a b =>
  inferInstanceAs (Decidable (_ = true))

/-- The step of the walk in stacks.rs assign_stacks: the next stack index,
    incremented when the gap from the previous capture time exceeds the
    threshold (factored out of the loop body for the proofs below). -/
def step_idx (gap : Nat) (idx : Nat) (last : Option Int) (t : Int) : Nat :=
  match last with
  | some prev => if gap < (t - prev).natAbs then idx + 1 else idx
  | none => idx

/-- The walk over timed groups from stacks.rs assign_stacks: threads the
    current stack index and the previous capture time, starting a new index
    when the consecutive gap exceeds burst_gap_secs.  Returns the assigned
    list together with the final stack index.  The none branch is unreachable
    for the caller, which passes only groups with a capture time. -/
def stack_walk (gap : Nat) : List LogicalGroup → Nat → Option Int → List (LogicalGroup × Nat) × Nat
  | [], idx, _ => ([], idx)
  | g :: rest, idx, last =>
    match capture_time g with
    | some t =>
      let idx2 := step_idx gap idx last t
      let tail := stack_walk gap rest idx2 (some t)
      ((g, idx2) :: tail.1, tail.2)
    | none =>
      let tail := stack_walk gap rest idx last
      ((g, idx) :: tail.1, tail.2)

/-- The trailing loop of assign_stacks: each untimed group gets its own solo
    stack, with the index incremented before it is recorded. -/
def solo_stacks : List LogicalGroup → Nat → List (LogicalGroup × Nat)
  | [], _ => []
  | g :: rest, idx => (g, idx + 1) :: solo_stacks rest (idx + 1)

/-- stacks.rs assign_stacks_clean, exported as assign_stacks_by_burst:
    partition groups into timed and untimed, stable-sort the timed ones by
    capture time, walk them with the consecutive-gap rule, then append the
    untimed groups as solo stacks. -/
def assign_stacks_by_burst (groups : List LogicalGroup) (gap : Nat) : List (LogicalGroup × Nat) :=
  let parts := groups.partition (fun g => (capture_time g).isSome)
  let sorted := List.insertionSort time_rel parts.1
  let timed := stack_walk gap sorted 0 none
  timed.1 ++ solo_stacks parts.2 timed.2

/-- The stack count the pipeline derives from an assignment (pipeline.rs:
    max stack index plus one, or zero for an empty assignment). -/
def stacks_generated_of (assigned : List (LogicalGroup × Nat)) : Nat :=
  (((assigned.map Prod.snd).max?).map (· + 1)).getD 0

/-- The timed groups of an input, stable-sorted by capture time, exactly as
    assign_stacks_by_burst produces them before its walk. -/
def sorted_timed (gs : List LogicalGroup) : List LogicalGroup :=
  List.insertionSort time_rel (gs.filter (fun g => (capture_time g).isSome))

/-- The untimed groups of an input, in input order. -/
def untimed_of (gs : List LogicalGroup) : List LogicalGroup :=
  gs.filter (fun g => !(capture_time g).isSome)

instance : IsTotal LogicalGroup time_rel := by
  constructor
  intro a b
  unfold time_rel time_le
  rcases capture_time a with _ | x <;> rcases capture_time b with _ | y <;> simp
  omega

instance : IsTrans LogicalGroup time_rel := by
  constructor
  intro a b c
  unfold time_rel time_le
  rcases capture_time a with _ | x <;> rcases capture_time b with _ | y <;>
    rcases capture_time c with _ | z <;> simp
  omega

theorem assign_stacks_eq (gs : List LogicalGroup) (gap : Nat) :
    assign_stacks_by_burst gs gap
      = (stack_walk gap (sorted_timed gs) 0 none).1
        ++ solo_stacks (untimed_of gs) (stack_walk gap (sorted_timed gs) 0 none).2 := by
  unfold assign_stacks_by_burst sorted_timed untimed_of
  rw [List.partition_eq_filter_filter]
  simp only [Function.comp_def]

theorem stack_walk_fst (gap : Nat) :
    ∀ (l : List LogicalGroup) (idx : Nat) (last : Option Int),
      (stack_walk gap l idx last).1.map Prod.fst = l := by
  intro l
  induction l with
  | nil => intro idx last; rfl
  | cons g rest ih =>
    intro idx last
    unfold stack_walk
    rcases h : capture_time g with _ | t <;> simp [h, ih]

theorem step_idx_ge (gap idx : Nat) (last : Option Int) (t : Int) :
    idx ≤ step_idx gap idx last t := by
  unfold step_idx
  rcases last with _ | prev
  · simp
  · by_cases h : gap < (t - prev).natAbs <;> simp [h]

theorem step_idx_le (gap idx : Nat) (last : Option Int) (t : Int) :
    step_idx gap idx last t ≤ idx + 1 := by
  unfold step_idx
  rcases last with _ | prev
  · simp
  · by_cases h : gap < (t - prev).natAbs <;> simp [h]

theorem stack_walk_fin_ge (gap : Nat) :
    ∀ (l : List LogicalGroup) (idx : Nat) (last : Option Int),
      idx ≤ (stack_walk gap l idx last).2 := by
  intro l
  induction l with
  | nil => intro idx last; simp [stack_walk]
  | cons g rest ih =>
    intro idx last
    unfold stack_walk
    rcases h : capture_time g with _ | t <;> simp [h]
    · exact ih idx last
    · exact le_trans (step_idx_ge gap idx last t) (ih _ (some t))

theorem stack_walk_ub (gap : Nat) :
    ∀ (l : List LogicalGroup) (idx : Nat) (last : Option Int),
      ∀ p ∈ (stack_walk gap l idx last).1, p.2 ≤ (stack_walk gap l idx last).2 := by
  intro l
  induction l with
  | nil => intro idx last p hp; simp [stack_walk] at hp
  | cons g rest ih =>
    intro idx last p hp
    unfold stack_walk at hp ⊢
    rcases h : capture_time g with _ | t <;> simp [h] at hp ⊢ <;>
      rcases hp with hp | hp
    · subst hp
      simpa using stack_walk_fin_ge gap rest idx last
    · exact ih idx last p hp
    · subst hp
      simpa using stack_walk_fin_ge gap rest (step_idx gap idx last t) (some t)
    · exact ih _ (some t) p hp

theorem stack_walk_lb (gap : Nat) :
    ∀ (l : List LogicalGroup) (idx : Nat) (last : Option Int),
      ∀ p ∈ (stack_walk gap l idx last).1, idx ≤ p.2 := by
  intro l
  induction l with
  | nil => intro idx last p hp; simp [stack_walk] at hp
  | cons g rest ih =>
    intro idx last p hp
    unfold stack_walk at hp
    rcases h : capture_time g with _ | t <;> simp [h] at hp <;>
      rcases hp with hp | hp
    · subst hp; simp
    · exact ih idx last p hp
    · subst hp; simpa using step_idx_ge gap idx last t
    · exact le_trans (step_idx_ge gap idx last t) (ih _ (some t) p hp)

theorem stack_walk_cons (gap : Nat) (g : LogicalGroup) (rest : List LogicalGroup)
    (idx : Nat) (last : Option Int) :
    ∃ j tl fin, stack_walk gap (g :: rest) idx last = ((g, j) :: tl, fin) := by
  unfold stack_walk
  rcases h : capture_time g with _ | t <;> simp [h]

theorem step_idx_eq_iff (gap idx : Nat) (prev t : Int) :
    step_idx gap idx (some prev) t = idx ↔ (t - prev).natAbs ≤ gap := by
  unfold step_idx
  by_cases h : gap < (t - prev).natAbs <;> simp [h] <;> omega

theorem stack_walk_pairs (gap : Nat) :
    ∀ (l : List LogicalGroup) (idx : Nat) (last : Option Int),
      ∀ pr ∈ ((stack_walk gap l idx last).1.zip (stack_walk gap l idx last).1.tail),
        ∀ t1 t2, capture_time pr.1.1 = some t1 → capture_time pr.2.1 = some t2 →
          (pr.1.2 = pr.2.2 ↔ (t2 - t1).natAbs ≤ gap) := by
  intro l
  induction l with
  | nil => intro idx last pr hpr; simp [stack_walk] at hpr
  | cons g rest ih =>
    intro idx last pr hpr t1 t2 h1 h2
    rcases rest with _ | ⟨g2, rest2⟩
    · rcases hcg : capture_time g with _ | t <;> simp [stack_walk, hcg] at hpr
    · rcases hg : capture_time g with _ | t
      · -- untimed head: its pair hypothesis would contradict hg
        obtain ⟨j2, tl2, fin2, he2⟩ := stack_walk_cons gap g2 rest2 idx last
        unfold stack_walk at hpr
        rw [hg] at hpr
        simp only [he2] at hpr
        simp at hpr
        rcases hpr with hpr | hpr
        · subst hpr
          simp [hg] at h1
        · exact ih idx last pr (by rw [he2]; simpa using hpr) t1 t2 h1 h2
      · -- timed head
        obtain ⟨j2, tl2, fin2, he2⟩ :=
          stack_walk_cons gap g2 rest2 (step_idx gap idx last t) (some t)
        unfold stack_walk at hpr
        rw [hg] at hpr
        simp only [he2] at hpr
        simp at hpr
        rcases hpr with hpr | hpr
        · -- pr is the head pair ((g, step), (g2, j2))
          subst hpr
          simp only at h1 h2 ⊢
          rcases hg2 : capture_time g2 with _ | t2x
          · simp [hg2] at h2
          · have hj2 : j2 = step_idx gap (step_idx gap idx last t) (some t) t2x := by
              unfold stack_walk at he2
              rw [hg2] at he2
              simp at he2
              exact (he2.1.1).symm
            have ht1 : t1 = t := by
              rw [hg] at h1
              exact (Option.some_inj.mp h1).symm
            have ht2 : t2 = t2x := by
              rw [hg2] at h2
              exact (Option.some_inj.mp h2).symm
            rw [hj2, ht1, ht2]
            rw [eq_comm]
            exact step_idx_eq_iff gap (step_idx gap idx last t) t t2x
        · exact ih (step_idx gap idx last t) (some t) pr (by rw [he2]; simpa using hpr) t1 t2 h1 h2

theorem solo_stacks_fst : ∀ (l : List LogicalGroup) (idx : Nat),
    (solo_stacks l idx).map Prod.fst = l := by
  intro l
  induction l with
  | nil => intro idx; rfl
  | cons g rest ih => intro idx; simp [solo_stacks, ih]

theorem solo_stacks_snd : ∀ (l : List LogicalGroup) (idx : Nat),
    (solo_stacks l idx).map Prod.snd = List.range' (idx + 1) l.length := by
  intro l
  induction l with
  | nil => intro idx; rfl
  | cons g rest ih => intro idx; simp [solo_stacks, ih, List.range'_succ]

theorem stack_walk_head_none (gap : Nat) (g : LogicalGroup) (rest : List LogicalGroup)
    (idx : Nat) :
    ∃ tl fin, stack_walk gap (g :: rest) idx none = ((g, idx) :: tl, fin) := by
  unfold stack_walk
  rcases h : capture_time g with _ | t <;> simp [h, step_idx]

theorem stack_walk_fin_mem (gap : Nat) :
    ∀ (l : List LogicalGroup) (idx : Nat) (last : Option Int), l ≠ [] →
      ∃ p ∈ (stack_walk gap l idx last).1, p.2 = (stack_walk gap l idx last).2 := by
  intro l
  induction l with
  | nil => intro idx last h; exact absurd rfl h
  | cons g rest ih =>
    intro idx last _
    rcases rest with _ | ⟨g2, rest2⟩
    · rcases h : capture_time g with _ | t
      · exact ⟨(g, idx), by simp [stack_walk, h], by simp [stack_walk, h]⟩
      · exact ⟨(g, step_idx gap idx last t), by simp [stack_walk, h], by simp [stack_walk, h]⟩
    · unfold stack_walk
      rcases h : capture_time g with _ | t <;> simp only [h]
      · obtain ⟨p, hp, he⟩ := ih idx last (by simp)
        exact ⟨p, List.mem_cons_of_mem _ hp, he⟩
      · obtain ⟨p, hp, he⟩ := ih (step_idx gap idx last t) (some t) (by simp)
        exact ⟨p, List.mem_cons_of_mem _ hp, he⟩

theorem stack_walk_interval (gap : Nat) :
    ∀ (l : List LogicalGroup) (idx : Nat) (last : Option Int) (j : Nat),
      idx ≤ j → j ≤ (stack_walk gap l idx last).2 →
      j = idx ∨ ∃ p ∈ (stack_walk gap l idx last).1, p.2 = j := by
  intro l
  induction l with
  | nil =>
    intro idx last j h1 h2
    simp [stack_walk] at h2
    omega
  | cons g rest ih =>
    intro idx last j h1 h2
    unfold stack_walk at h2 ⊢
    rcases h : capture_time g with _ | t <;> simp only [h] at h2 ⊢
    · rcases Nat.eq_or_lt_of_le h1 with he | hlt
      · exact Or.inl he.symm
      · rcases ih idx last j h1 h2 with he | ⟨p, hp, hpe⟩
        · exact Or.inl he
        · exact Or.inr ⟨p, List.mem_cons_of_mem _ hp, hpe⟩
    · rcases Nat.eq_or_lt_of_le (step_idx_ge gap idx last t) with hse | hslt
      · -- step keeps the index
        rcases Nat.eq_or_lt_of_le h1 with he | hlt
        · refine Or.inr ⟨(g, step_idx gap idx last t), List.mem_cons_self _ _, ?_⟩
          omega
        · have hstep : step_idx gap idx last t ≤ j := by omega
          rcases ih (step_idx gap idx last t) (some t) j hstep h2 with he2 | ⟨p, hp, hpe⟩
          · refine Or.inr ⟨(g, step_idx gap idx last t), List.mem_cons_self _ _, ?_⟩
            omega
          · exact Or.inr ⟨p, List.mem_cons_of_mem _ hp, hpe⟩
      · -- step increments the index
        have hse : step_idx gap idx last t = idx + 1 := by
          have := step_idx_le gap idx last t
          omega
        rcases Nat.eq_or_lt_of_le h1 with he | hlt
        · exact Or.inl he.symm
        · have hstep : step_idx gap idx last t ≤ j := by omega
          rcases ih (step_idx gap idx last t) (some t) j hstep h2 with he2 | ⟨p, hp, hpe⟩
          · refine Or.inr ⟨(g, step_idx gap idx last t), List.mem_cons_self _ _, ?_⟩
            omega
          · exact Or.inr ⟨p, List.mem_cons_of_mem _ hp, hpe⟩

theorem walk_zero_run :
    ∀ (l : List LogicalGroup) (idx : Nat) (t : Int),
      Sorted time_rel l →
      (∀ g ∈ l, (capture_time g).isSome) →
      (∀ g ∈ l, ∀ u, capture_time g = some u → t ≤ u) →
      ∀ g j, (g, j) ∈ (stack_walk 0 l idx (some t)).1 → j = idx →
        capture_time g = some t := by
  intro l
  induction l with
  | nil => intro idx t _ _ _ g j hm; simp [stack_walk] at hm
  | cons g2 rest ih =>
    intro idx t hs hall hle g j hm hj
    have hg2s : (capture_time g2).isSome := hall g2 (by simp)
    rcases hg2 : capture_time g2 with _ | t2
    · rw [hg2] at hg2s; simp at hg2s
    · have ht2 : t ≤ t2 := hle g2 (by simp) t2 hg2
      unfold stack_walk at hm
      rw [hg2] at hm
      simp at hm
      rcases hm with ⟨he1, he2⟩ | hm
      · -- head: index kept means zero gap, hence equal times
        subst he1
        rw [hj] at he2
        have := (step_idx_eq_iff 0 idx t t2).mp he2.symm
        have : t2 = t := by omega
        rw [hg2, this]
      · -- tail
        by_cases hz : (0 : Nat) < (t2 - t).natAbs
        · have hstep : step_idx 0 idx (some t) t2 = idx + 1 := by
            unfold step_idx; simp [hz]
          rw [hstep] at hm
          have := stack_walk_lb 0 rest (idx + 1) (some t2) (g, j) hm
          omega
        · have ht2t : t2 = t := by omega
          have hstep : step_idx 0 idx (some t) t2 = idx := by
            unfold step_idx; simp; omega
          rw [hstep] at hm
          have hs' := (List.sorted_cons.mp hs).2
          have hrel := (List.sorted_cons.mp hs).1
          have := ih idx t2 hs' (fun g hg => hall g (by simp [hg]))
            (fun g hg u hu => by
              have := hrel g hg
              unfold time_rel time_le at this
              rw [hg2, hu] at this
              simpa using this) g j hm hj
          rw [this, ht2t]

theorem walk_zero_inj :
    ∀ (l : List LogicalGroup) (idx : Nat) (last : Option Int),
      Sorted time_rel l →
      (∀ g ∈ l, (capture_time g).isSome) →
      (∀ t0, last = some t0 → ∀ g ∈ l, ∀ u, capture_time g = some u → t0 ≤ u) →
      ∀ p q, p ∈ (stack_walk 0 l idx last).1 → q ∈ (stack_walk 0 l idx last).1 →
        p.2 = q.2 → capture_time p.1 = capture_time q.1 := by
  intro l
  induction l with
  | nil => intro idx last _ _ _ p q hp; simp [stack_walk] at hp
  | cons g rest ih =>
    intro idx last hs hall hcompat p q hp hq hpq
    have hgs : (capture_time g).isSome := hall g (by simp)
    rcases hg : capture_time g with _ | t
    · rw [hg] at hgs; simp at hgs
    · have hs' := (List.sorted_cons.mp hs).2
      have hrel := (List.sorted_cons.mp hs).1
      have hrest_ge : ∀ g2 ∈ rest, ∀ u, capture_time g2 = some u → t ≤ u := by
        intro g2 hg2 u hu
        have := hrel g2 hg2
        unfold time_rel time_le at this
        rw [hg, hu] at this
        simpa using this
      unfold stack_walk at hp hq
      rw [hg] at hp hq
      simp at hp hq
      rcases hp with hp | hp <;> rcases hq with hq | hq
      · rw [hp, hq]
      · -- p is the head, q in the tail with equal index
        rcases q with ⟨gq, jq⟩
        rw [hp] at hpq
        simp at hpq
        have := walk_zero_run rest (step_idx 0 idx last t) t hs'
          (fun g2 h2 => hall g2 (by simp [h2])) hrest_ge gq jq hq hpq.symm
        rw [hp, this]
        simp [hg]
      · rcases p with ⟨gp, jp⟩
        rw [hq] at hpq
        simp at hpq
        have := walk_zero_run rest (step_idx 0 idx last t) t hs'
          (fun g2 h2 => hall g2 (by simp [h2])) hrest_ge gp jp hp hpq
        rw [hq, this]
        simp [hg]
      · exact ih (step_idx 0 idx last t) (some t) hs'
          (fun g2 h2 => hall g2 (by simp [h2]))
          (fun t0 ht0 g2 h2 u hu => by
            rw [Option.some_inj] at ht0
            rw [← ht0]
            exact hrest_ge g2 h2 u hu) p q hp hq hpq

theorem solo_stacks_mem_fst : ∀ (l : List LogicalGroup) (idx : Nat) (p : LogicalGroup × Nat),
    p ∈ solo_stacks l idx → p.1 ∈ l := by
  intro l
  induction l with
  | nil => intro idx p hp; simp [solo_stacks] at hp
  | cons g rest ih =>
    intro idx p hp
    simp [solo_stacks] at hp
    rcases hp with hp | hp
    · rw [hp]; simp
    · exact List.mem_cons_of_mem _ (ih (idx + 1) p hp)

theorem untimed_of_none (gs : List LogicalGroup) (g : LogicalGroup) :
    g ∈ untimed_of gs → capture_time g = none := by
  intro hg
  unfold untimed_of at hg
  have := (List.mem_filter.mp hg).2
  rcases h : capture_time g with _ | t
  · rfl
  · rw [h] at this; simp at this

theorem sorted_timed_sorted (gs : List LogicalGroup) : Sorted time_rel (sorted_timed gs) :=
  List.sorted_insertionSort time_rel _

theorem sorted_timed_all_some (gs : List LogicalGroup) :
    ∀ g ∈ sorted_timed gs, (capture_time g).isSome := by
  intro g hg
  have hperm := List.perm_insertionSort time_rel (gs.filter (fun g => (capture_time g).isSome))
  have := hperm.mem_iff.mp hg
  exact (List.mem_filter.mp this).2

/-- A concrete jpeg ScannedFile with a given capture time, used to state the
    concrete test vectors of the spec. -/
def ex_file (t : Option Int) : ScannedFile :=
  { path := { dir := "d", stem := "s", ext := "jpg" }, format := PhotoFormat.jpeg,
    capture_time := t, camera_model := none, lens := none, orientation := none,
    base_name := "s", dir := "d" }

/-- A concrete logical group with a given capture time. -/
def ex_group (t : Int) : LogicalGroup :=
  { jpeg := some (ex_file (some t)), raw := none, is_pair := false }

/-- A concrete logical group with no capture time. -/
def ex_untimed : LogicalGroup :=
  { jpeg := some (ex_file none), raw := none, is_pair := false }

/-- C1: the burst clusterer sorts the timed groups ascending by capture time
    and gives two adjacent groups of that sorted order the same stack index
    exactly when their time gap is at most the threshold; times 0,2,4,6,8 with
    gap 3 land in one stack, times 0..4 with gap 3 land in one stack, times
    0,2,3,13,14,15 with gap 3 give two stacks of three, and with gap 0 any two
    timed groups with distinct capture times get distinct stack indices. -/
theorem C1_burst_consecutive_pair_rule :
    (∀ (gs : List LogicalGroup) (gap : Nat),
        ((stack_walk gap (sorted_timed gs) 0 none).1.map Prod.fst = sorted_timed gs)
      ∧ Sorted time_rel (sorted_timed gs)
      ∧ (sorted_timed gs).Perm (gs.filter (fun g => (capture_time g).isSome))
      ∧ assign_stacks_by_burst gs gap
          = (stack_walk gap (sorted_timed gs) 0 none).1
            ++ solo_stacks (untimed_of gs) (stack_walk gap (sorted_timed gs) 0 none).2
      ∧ (∀ pr ∈ ((stack_walk gap (sorted_timed gs) 0 none).1.zip
            ((stack_walk gap (sorted_timed gs) 0 none).1.tail)),
          ∀ t1 t2, capture_time pr.1.1 = some t1 → capture_time pr.2.1 = some t2 →
            (pr.1.2 = pr.2.2 ↔ (t2 - t1).natAbs ≤ gap)))
  ∧ ((assign_stacks_by_burst
        [ex_group 0, ex_group 2, ex_group 4, ex_group 6, ex_group 8] 3).map Prod.snd
      = [0, 0, 0, 0, 0])
  ∧ ((assign_stacks_by_burst
        [ex_group 0, ex_group 1, ex_group 2, ex_group 3, ex_group 4] 3).map Prod.snd
      = [0, 0, 0, 0, 0])
  ∧ ((assign_stacks_by_burst
        [ex_group 0, ex_group 2, ex_group 3, ex_group 13, ex_group 14, ex_group 15] 3).map
        Prod.snd
      = [0, 0, 0, 1, 1, 1])
  ∧ (∀ (gs : List LogicalGroup) (p q : LogicalGroup × Nat),
        p ∈ assign_stacks_by_burst gs 0 → q ∈ assign_stacks_by_burst gs 0 →
        ∀ t1 t2, capture_time p.1 = some t1 → capture_time q.1 = some t2 →
          t1 ≠ t2 → p.2 ≠ q.2) := by
  refine ⟨?_, by decide, by decide, by decide, ?_⟩
  · intro gs gap
    exact ⟨stack_walk_fst gap _ 0 none, sorted_timed_sorted gs,
      List.perm_insertionSort time_rel _, assign_stacks_eq gs gap,
      stack_walk_pairs gap _ 0 none⟩
  · intro gs p q hp hq t1 t2 h1 h2 hne
    rw [assign_stacks_eq] at hp hq
    rcases List.mem_append.mp hp with hp | hp
    swap
    · have := untimed_of_none gs p.1 (solo_stacks_mem_fst _ _ p hp)
      rw [this] at h1
      exact absurd h1 (by simp)
    rcases List.mem_append.mp hq with hq | hq
    swap
    · have := untimed_of_none gs q.1 (solo_stacks_mem_fst _ _ q hq)
      rw [this] at h2
      exact absurd h2 (by simp)
    intro hpq
    have := walk_zero_inj (sorted_timed gs) 0 none (sorted_timed_sorted gs)
      (sorted_timed_all_some gs) (fun t0 ht0 => by simp at ht0) p q hp hq hpq
    rw [h1, h2] at this
    exact hne (Option.some_inj.mp this)

/-- Witness for C1: the adjacency rule instantiated on the two-stack vector,
    checking one adjacent pair inside and one across the burst boundary. -/
theorem C1_burst_consecutive_pair_rule_witness :
    ∃ pr ∈ ((stack_walk 3 (sorted_timed
        [ex_group 0, ex_group 2, ex_group 3, ex_group 13, ex_group 14, ex_group 15]) 0 none).1.zip
        ((stack_walk 3 (sorted_timed
        [ex_group 0, ex_group 2, ex_group 3, ex_group 13, ex_group 14, ex_group 15]) 0 none).1.tail)),
      capture_time pr.1.1 = some 2 ∧ capture_time pr.2.1 = some 3 ∧ pr.1.2 = pr.2.2 := by
  refine ⟨((ex_group 2, 0), (ex_group 3, 0)), by decide, by decide, by decide, ?_⟩
  have h := (C1_burst_consecutive_pair_rule.1
      [ex_group 0, ex_group 2, ex_group 3, ex_group 13, ex_group 14, ex_group 15] 3).2.2.2.2
      ((ex_group 2, 0), (ex_group 3, 0)) (by decide) 2 3 (by decide) (by decide)
  exact h.mpr (by decide)

theorem sorted_timed_ne_nil (gs : List LogicalGroup)
    (h : ∃ g ∈ gs, (capture_time g).isSome) : sorted_timed gs ≠ [] := by
  obtain ⟨g, hg, hs⟩ := h
  have hf : g ∈ gs.filter (fun g => (capture_time g).isSome) := List.mem_filter.mpr ⟨hg, hs⟩
  have hperm := List.perm_insertionSort time_rel (gs.filter (fun g => (capture_time g).isSome))
  intro hnil
  rw [← hperm.mem_iff] at hf
  unfold sorted_timed at hnil
  rw [hnil] at hf
  simp at hf

theorem assign_indices_cover (gs : List LogicalGroup) (gap : Nat)
    (h : ∃ g ∈ gs, (capture_time g).isSome) :
    ∀ j, j ∈ (assign_stacks_by_burst gs gap).map Prod.snd ↔
      j < stacks_generated_of (assign_stacks_by_burst gs gap) := by
  have hne := sorted_timed_ne_nil gs h
  have hmap : (assign_stacks_by_burst gs gap).map Prod.snd
      = (stack_walk gap (sorted_timed gs) 0 none).1.map Prod.snd
        ++ List.range' ((stack_walk gap (sorted_timed gs) 0 none).2 + 1)
            (untimed_of gs).length := by
    rw [assign_stacks_eq]
    rw [List.map_append, solo_stacks_snd]
  have hfin := stack_walk_fin_mem gap (sorted_timed gs) 0 none hne
  have hub := stack_walk_ub gap (sorted_timed gs) 0 none
  have htop : (stack_walk gap (sorted_timed gs) 0 none).2 + (untimed_of gs).length
      ∈ (assign_stacks_by_burst gs gap).map Prod.snd := by
    rw [hmap]
    rcases Nat.eq_zero_or_pos (untimed_of gs).length with hz | hpos
    · rw [hz]
      obtain ⟨p, hp, hpe⟩ := hfin
      simp only [Nat.add_zero]
      exact List.mem_append_left _ (List.mem_map.mpr ⟨p, hp, hpe⟩)
    · refine List.mem_append_right _ (List.mem_range'_1.mpr ⟨by omega, by omega⟩)
  have hall : ∀ j ∈ (assign_stacks_by_burst gs gap).map Prod.snd,
      j ≤ (stack_walk gap (sorted_timed gs) 0 none).2 + (untimed_of gs).length := by
    intro j hj
    rw [hmap] at hj
    rcases List.mem_append.mp hj with hj | hj
    · obtain ⟨p, hp, hpe⟩ := List.mem_map.mp hj
      have := hub p hp
      omega
    · have := List.mem_range'_1.mp hj
      omega
  have hmax : ((assign_stacks_by_burst gs gap).map Prod.snd).max?
      = some ((stack_walk gap (sorted_timed gs) 0 none).2 + (untimed_of gs).length) :=
    List.max?_eq_some_iff'.mpr ⟨htop, hall⟩
  have hgen : stacks_generated_of (assign_stacks_by_burst gs gap)
      = (stack_walk gap (sorted_timed gs) 0 none).2 + (untimed_of gs).length + 1 := by
    unfold stacks_generated_of
    rw [hmax]
    rfl
  intro j
  rw [hgen]
  constructor
  · intro hj
    have := hall j hj
    omega
  · intro hj
    rw [hmap]
    by_cases hle : j ≤ (stack_walk gap (sorted_timed gs) 0 none).2
    · rcases stack_walk_interval gap (sorted_timed gs) 0 none j (Nat.zero_le j) hle with he | ⟨p, hp, hpe⟩
      · -- j = 0: the first element of the walk has index 0
        subst he
        rcases hst : sorted_timed gs with _ | ⟨g, rest⟩
        · exact absurd hst hne
        · obtain ⟨tl, fin, hw⟩ := stack_walk_head_none gap g rest 0
          refine List.mem_append_left _ (List.mem_map.mpr ⟨(g, 0), ?_, rfl⟩)
          rw [hw]
          simp
      · exact List.mem_append_left _ (List.mem_map.mpr ⟨p, hp, hpe⟩)
    · refine List.mem_append_right _ (List.mem_range'_1.mpr ⟨by omega, by omega⟩)

theorem assign_all_untimed (gs : List LogicalGroup) (gap : Nat)
    (h : ∀ g ∈ gs, capture_time g = none) :
    assign_stacks_by_burst gs gap = solo_stacks gs 0 := by
  rw [assign_stacks_eq]
  have hfe : gs.filter (fun g => (capture_time g).isSome) = [] := by
    rw [List.filter_eq_nil_iff]
    intro g hg
    rw [h g hg]
    simp
  have hue : untimed_of gs = gs := by
    unfold untimed_of
    rw [List.filter_eq_self]
    intro g hg
    rw [h g hg]
    simp
  unfold sorted_timed
  rw [hfe, hue]
  simp [stack_walk]

/-- C6 counterexample: one untimed group receives stack index 1, not 0; the
    pipeline then counts two stacks and pre-creates an index-0 stack row that
    owns no group. -/
theorem C6_counterexample_untimed_only :
    (assign_stacks_by_burst [ex_untimed] 3).map Prod.snd = [1]
    ∧ stacks_generated_of (assign_stacks_by_burst [ex_untimed] 3) = 2
    ∧ 0 ∉ (assign_stacks_by_burst [ex_untimed] 3).map Prod.snd := by
  refine ⟨by decide, by decide, by decide⟩

/-- C6 amended: when at least one group has a capture time, the returned
    stack indices are exactly 0..max, so every pre-allocated stack owns a
    group; when no group has a capture time, the indices are exactly
    1..length, the pipeline counts length+1 stacks and index 0 owns nothing. -/
theorem C6_amended_zero_based_indices (gs : List LogicalGroup) (gap : Nat) :
    ((∃ g ∈ gs, (capture_time g).isSome) →
        ∀ j, j ∈ (assign_stacks_by_burst gs gap).map Prod.snd ↔
          j < stacks_generated_of (assign_stacks_by_burst gs gap))
    ∧ ((∀ g ∈ gs, capture_time g = none) →
        (assign_stacks_by_burst gs gap).map Prod.snd = List.range' 1 gs.length
        ∧ (gs ≠ [] →
            stacks_generated_of (assign_stacks_by_burst gs gap) = gs.length + 1
            ∧ 0 ∉ (assign_stacks_by_burst gs gap).map Prod.snd)) := by
  constructor
  · exact assign_indices_cover gs gap
  · intro h
    have hsolo := assign_all_untimed gs gap h
    have hsnd : (assign_stacks_by_burst gs gap).map Prod.snd = List.range' 1 gs.length := by
      rw [hsolo, solo_stacks_snd]
    refine ⟨hsnd, ?_⟩
    intro hne
    have hlen : 1 ≤ gs.length := by
      rcases gs with _ | ⟨g, rest⟩
      · exact absurd rfl hne
      · simp
    constructor
    · unfold stacks_generated_of
      rw [hsnd]
      have hmax : (List.range' 1 gs.length).max? = some gs.length :=
        List.max?_eq_some_iff'.mpr
          ⟨List.mem_range'_1.mpr ⟨hlen, by omega⟩,
            fun b hb => by have := List.mem_range'_1.mp hb; omega⟩
      rw [hmax]
      rfl
    · rw [hsnd]
      intro h0
      have := List.mem_range'_1.mp h0
      omega

/-- Witness for C6 amended: on one timed group the index set is exactly the
    singleton 0, and on one untimed group the second branch applies. -/
theorem C6_amended_zero_based_indices_witness :
    (0 ∈ (assign_stacks_by_burst [ex_group 0] 3).map Prod.snd)
    ∧ (assign_stacks_by_burst [ex_untimed] 3).map Prod.snd = List.range' 1 1 := by
  constructor
  · exact ((C6_amended_zero_based_indices [ex_group 0] 3).1
      ⟨ex_group 0, by decide, by decide⟩ 0).mpr (by decide)
  · exact ((C6_amended_zero_based_indices [ex_untimed] 3).2 (by decide)).1

/-- The member files of a logical group (the jpeg and raw slots that are
    filled). -/
def group_members (g : LogicalGroup) : List ScannedFile :=
  g.jpeg.toList ++ g.raw.toList

theorem single_group_members (f : ScannedFile) :
    group_members (single_group f) = [f] := by
  unfold single_group group_members
  by_cases h : f.format = PhotoFormat.jpeg <;> simp [h]

theorem single_group_not_pair (f : ScannedFile) :
    (single_group f).is_pair = false := by
  unfold single_group
  by_cases h : f.format = PhotoFormat.jpeg <;> simp [h]

theorem filter_jpeg_raw_length (b : List ScannedFile) :
    (b.filter (fun f => decide (f.format = PhotoFormat.jpeg))).length
      + (b.filter (fun f => decide (f.format = PhotoFormat.raw))).length = b.length := by
  induction b with
  | nil => rfl
  | cons f rest ih =>
    rcases h : f.format <;> simp [h] <;> omega

theorem resolve_group_unmixed (b : List ScannedFile)
    (h : ¬(b.length = 2
        ∧ (b.filter (fun f => decide (f.format = PhotoFormat.jpeg))).length = 1)) :
    resolve_group b = b.map single_group := by
  rcases b with _ | ⟨f1, _ | ⟨f2, _ | ⟨f3, rest⟩⟩⟩
  · rfl
  · rfl
  · show make_pair [f1, f2] = [f1, f2].map single_group
    unfold make_pair
    rw [List.partition_eq_filter_filter]
    rcases h1 : f1.format <;> rcases h2 : f2.format <;>
      simp [h1, h2, single_group] at h ⊢
  · rfl

theorem resolve_group_mixed (b : List ScannedFile)
    (h2 : b.length = 2)
    (hj : (b.filter (fun f => decide (f.format = PhotoFormat.jpeg))).length = 1) :
    ∃ j r, b.filter (fun f => decide (f.format = PhotoFormat.jpeg)) = [j]
      ∧ b.filter (fun f => decide (¬f.format = PhotoFormat.jpeg)) = [r]
      ∧ resolve_group b = [{ jpeg := some j, raw := some r, is_pair := true }] := by
  rcases b with _ | ⟨f1, _ | ⟨f2, _ | ⟨f3, rest⟩⟩⟩ <;> simp at h2
  have hre : resolve_group [f1, f2] = make_pair [f1, f2] := rfl
  rw [hre]
  unfold make_pair
  rw [List.partition_eq_filter_filter]
  rcases h1 : f1.format <;> rcases hf2 : f2.format <;> simp [h1, hf2] at hj ⊢

theorem resolve_group_members (b : List ScannedFile) (g : LogicalGroup)
    (hg : g ∈ resolve_group b) : ∀ f ∈ group_members g, f ∈ b := by
  by_cases h : b.length = 2
      ∧ (b.filter (fun f => decide (f.format = PhotoFormat.jpeg))).length = 1
  · obtain ⟨j, r, hjf, hrf, hre⟩ := resolve_group_mixed b h.1 h.2
    rw [hre] at hg
    simp at hg
    subst hg
    intro f hf
    unfold group_members at hf
    simp at hf
    rcases hf with hf | hf <;> subst hf
    · exact List.mem_of_mem_filter (by rw [hjf]; simp)
    · exact List.mem_of_mem_filter (by rw [hrf]; simp)
  · rw [resolve_group_unmixed b h] at hg
    obtain ⟨f0, hf0, hfe⟩ := List.mem_map.mp hg
    subst hfe
    intro f hf
    rw [single_group_members] at hf
    simp at hf
    subst hf
    exact hf0

theorem resolve_group_count (b : List ScannedFile) (g : LogicalGroup)
    (hg : g ∈ resolve_group b) :
    (group_members g).length = 1 ∨ (group_members g).length = 2 := by
  by_cases h : b.length = 2
      ∧ (b.filter (fun f => decide (f.format = PhotoFormat.jpeg))).length = 1
  · obtain ⟨j, r, _, _, hre⟩ := resolve_group_mixed b h.1 h.2
    rw [hre] at hg
    simp at hg
    subst hg
    right
    rfl
  · rw [resolve_group_unmixed b h] at hg
    obtain ⟨f0, _, hfe⟩ := List.mem_map.mp hg
    subst hfe
    left
    rw [single_group_members]
    rfl

theorem resolve_group_is_pair_iff (b : List ScannedFile) (g : LogicalGroup)
    (hg : g ∈ resolve_group b) :
    (g.is_pair = true ↔ (b.length = 2
      ∧ (b.filter (fun f => decide (f.format = PhotoFormat.jpeg))).length = 1)) := by
  by_cases h : b.length = 2
      ∧ (b.filter (fun f => decide (f.format = PhotoFormat.jpeg))).length = 1
  · obtain ⟨j, r, _, _, hre⟩ := resolve_group_mixed b h.1 h.2
    rw [hre] at hg
    simp at hg
    subst hg
    simpa using h
  · rw [resolve_group_unmixed b h] at hg
    obtain ⟨f0, _, hfe⟩ := List.mem_map.mp hg
    subst hfe
    rw [single_group_not_pair]
    simpa using h

theorem resolve_group_rep_some (b : List ScannedFile) (g : LogicalGroup)
    (hg : g ∈ resolve_group b) : (representative g).isSome := by
  by_cases h : b.length = 2
      ∧ (b.filter (fun f => decide (f.format = PhotoFormat.jpeg))).length = 1
  · obtain ⟨j, r, _, _, hre⟩ := resolve_group_mixed b h.1 h.2
    rw [hre] at hg
    simp at hg
    subst hg
    rfl
  · rw [resolve_group_unmixed b h] at hg
    obtain ⟨f0, _, hfe⟩ := List.mem_map.mp hg
    subst hfe
    unfold representative single_group
    by_cases hf : f0.format = PhotoFormat.jpeg <;> simp [hf]

theorem rep_mem_members (g : LogicalGroup) (f : ScannedFile)
    (h : representative g = some f) : f ∈ group_members g := by
  unfold representative at h
  unfold group_members
  rcases hj : g.jpeg with _ | fj
  · rw [hj] at h
    simp at h
    simp [h]
  · rw [hj] at h
    simp at h
    simp [← h]

theorem bucket_key (files : List ScannedFile) (k : String × String) (f : ScannedFile)
    (hf : f ∈ bucket files k) : group_key f = k := by
  unfold bucket at hf
  have := (List.mem_filter.mp hf).2
  simpa using this

/-- C3: detect_pairs groups files by (dir, lowercased base name); a returned
    group is a pair exactly when its key bucket holds two files, one jpeg and
    one raw; a two-file same-format bucket yields two singletons; a bucket of
    three or more yields one singleton per file; and every returned group has
    exactly one or two members. -/
theorem C3_detect_pairs_conservative (files : List ScannedFile) :
    (∀ g ∈ detect_pairs files,
        (group_members g).length = 1 ∨ (group_members g).length = 2)
  ∧ (∀ g ∈ detect_pairs files, ∀ f, representative g = some f →
        (g.is_pair = true ↔
          ((bucket files (group_key f)).length = 2
            ∧ ((bucket files (group_key f)).filter
                (fun f => decide (f.format = PhotoFormat.jpeg))).length = 1
            ∧ ((bucket files (group_key f)).filter
                (fun f => decide (f.format = PhotoFormat.raw))).length = 1)))
  ∧ (∀ k f1 f2, bucket files k = [f1, f2] → f1.format = f2.format →
        resolve_group (bucket files k) = [single_group f1, single_group f2])
  ∧ (∀ k, 3 ≤ (bucket files k).length →
        resolve_group (bucket files k) = (bucket files k).map single_group) := by
  refine ⟨?_, ?_, ?_, ?_⟩
  · intro g hg
    obtain ⟨k, _, hgk⟩ := List.mem_flatMap.mp hg
    exact resolve_group_count _ g hgk
  · intro g hg f hf
    obtain ⟨k, _, hgk⟩ := List.mem_flatMap.mp hg
    have hfb : f ∈ bucket files k :=
      resolve_group_members _ g hgk f (rep_mem_members g f hf)
    have hk : group_key f = k := bucket_key files k f hfb
    rw [hk]
    have hiff := resolve_group_is_pair_iff _ g hgk
    rw [hiff]
    have hsum := filter_jpeg_raw_length (bucket files k)
    constructor
    · intro ⟨h2, hj⟩
      exact ⟨h2, hj, by omega⟩
    · intro ⟨h2, hj, _⟩
      exact ⟨h2, hj⟩
  · intro k f1 f2 hb hfmt
    rw [hb, resolve_group_unmixed]
    · rfl
    intro ⟨_, hj⟩
    rcases h1 : f1.format <;> rcases h2 : f2.format <;>
      rw [h1, h2] at hfmt <;> simp [h1, h2] at hj <;> exact (by simpa using hfmt)
  · intro k h3
    apply resolve_group_unmixed
    omega

/-- A concrete file for the C3 witness. -/
def exf (stem : String) (fmt : PhotoFormat) : ScannedFile :=
  { path := { dir := "d", stem := stem, ext := "e" }, format := fmt,
    capture_time := none, camera_model := none, lens := none, orientation := none,
    base_name := stem, dir := "d" }

/-- Witness for C3: a jpeg and a raw sharing a key form a pair, and the iff
    of the theorem evaluates on it. -/
theorem C3_detect_pairs_conservative_witness :
    ({ jpeg := some (exf "a" PhotoFormat.jpeg), raw := some (exf "a" PhotoFormat.raw),
       is_pair := true } : LogicalGroup).is_pair = true :=
  ((C3_detect_pairs_conservative [exf "a" PhotoFormat.jpeg, exf "a" PhotoFormat.raw]).2.1
    { jpeg := some (exf "a" PhotoFormat.jpeg), raw := some (exf "a" PhotoFormat.raw),
      is_pair := true }
    (by decide) (exf "a" PhotoFormat.jpeg) (by decide)).mpr (by decide)

/-- Lowercasing used for base names (Rust to_lowercase; both producers and
    the reload path apply the same function, which is all the proofs use). -/
def lower_string (s : String) : String :=
  s.map Char.toLower

/-- A photos table row (db/migrations.rs): path is UNIQUE; format is stored
    as the strings jpeg and raw, modelled by PhotoFormat directly since
    repository.rs parses exactly those two strings back; capture_time is
    stored as an rfc3339 string whose round trip is the identity, modelled
    as the Option Int value itself. -/
structure PhotoRow where
  id : Nat
  path : PathM
  format : PhotoFormat
  capture_time : Option Int
  orientation : Option Nat
  camera_model : Option String
  lens : Option String
  logical_photo_id : Option Nat
deriving DecidableEq, Repr

/-- A logical_photos table row. -/
structure LpRow where
  id : Nat
  project_id : Nat
  representative_photo_id : Nat
  stack_id : Option Nat
deriving DecidableEq, Repr

/-- A stacks table row. -/
structure StackRow where
  id : Nat
  project_id : Nat
deriving DecidableEq, Repr

/-- The three tables the pipeline touches. -/
structure DB where
  photos : List PhotoRow
  logical_photos : List LpRow
  stack_rows : List StackRow
deriving DecidableEq, Repr

/-- The largest id in use; SQLite assigns max rowid + 1 to the next insert
    for tables without AUTOINCREMENT. -/
def max_nat (l : List Nat) : Nat :=
  l.foldr max 0

theorem le_max_nat (l : List Nat) : ∀ x ∈ l, x ≤ max_nat l := by
  induction l with
  | nil => simp
  | cons a rest ih =>
    intro x hx
    rcases List.mem_cons.mp hx with hx | hx
    · subst hx
      simp only [max_nat, List.foldr_cons]
      exact Nat.le_max_left _ _
    · have := ih x hx
      simp only [max_nat, List.foldr_cons] at this ⊢
      exact le_trans this (Nat.le_max_right _ _)

/-- repository.rs insert_photo: INSERT OR IGNORE keyed by unique path, then
    SELECT the id of the row with that path. -/
def insert_photo (db : DB) (path : PathM) (format : PhotoFormat)
    (capture_time : Option Int) (orientation : Option Nat)
    (camera_model lens : Option String) : DB × Nat :=
  let db1 :=
    if db.photos.any (fun p => decide (p.path = path)) then db
    else { db with photos := db.photos ++
      [{ id := max_nat (db.photos.map (fun p => p.id)) + 1, path := path,
         format := format, capture_time := capture_time, orientation := orientation,
         camera_model := camera_model, lens := lens, logical_photo_id := none }] }
  (db1, ((db1.photos.find? (fun p => decide (p.path = path))).map (fun p => p.id)).getD 0)

/-- repository.rs set_logical_photo_id: UPDATE photos SET logical_photo_id
    WHERE id. -/
def set_logical_photo_id (db : DB) (photo_id lp_id : Nat) : DB :=
  { db with photos := db.photos.map (fun p =>
      if p.id = photo_id then { p with logical_photo_id := some lp_id } else p) }

/-- repository.rs insert_stack: INSERT INTO stacks, returning the new rowid. -/
def insert_stack (db : DB) (project_id : Nat) : DB × Nat :=
  let id := max_nat (db.stack_rows.map (fun s => s.id)) + 1
  ({ db with stack_rows := db.stack_rows ++ [{ id := id, project_id := project_id }] }, id)

/-- repository.rs insert_logical_photo. -/
def insert_logical_photo (db : DB) (project_id rep_id stack_id : Nat) : DB × Nat :=
  let id := max_nat (db.logical_photos.map (fun l => l.id)) + 1
  ({ db with logical_photos := db.logical_photos ++
      [{ id := id, project_id := project_id, representative_photo_id := rep_id,
         stack_id := some stack_id }] }, id)

/-- repository.rs clear_stacks_and_logical_photos: null out the photo links
    into this project's logical photos, then delete the project's
    logical_photos and stacks. -/
def clear_stacks_and_logical_photos (db : DB) (project_id : Nat) : DB :=
  { photos := db.photos.map (fun p =>
      if db.logical_photos.any (fun l =>
          decide (some l.id = p.logical_photo_id) && decide (l.project_id = project_id))
      then { p with logical_photo_id := none } else p),
    logical_photos := db.logical_photos.filter (fun l => decide (¬l.project_id = project_id)),
    stack_rows := db.stack_rows.filter (fun s => decide (¬s.project_id = project_id)) }

/-- repository.rs list_photo_paths_for_project: paths of photos joined
    through logical_photo_id to this project's logical photos. -/
def list_photo_paths_for_project (db : DB) (project_id : Nat) : List PathM :=
  (db.photos.filter (fun p => db.logical_photos.any (fun l =>
      decide (some l.id = p.logical_photo_id) && decide (l.project_id = project_id)))).map
    (fun p => p.path)

/-- repository.rs load_existing_scanned_files: rebuild ScannedFile values
    from all photos rows, recomputing base_name and dir from the path. -/
def load_existing_scanned_files (db : DB) : List ScannedFile :=
  db.photos.map (fun p =>
    { path := p.path, format := p.format, capture_time := p.capture_time,
      camera_model := p.camera_model, lens := p.lens, orientation := p.orientation,
      base_name := lower_string p.path.stem, dir := p.path.dir })

/-- Modelled from the spec: repository clear_stacks_only is called by the
    restack path but its definition is not under src.  Per the spec it clears
    only Stack rows for the project and detaches the Logical Photo to Stack
    link without deleting the Logical Photo. -/
def clear_stacks_only (db : DB) (project_id : Nat) : DB :=
  { db with
    logical_photos := db.logical_photos.map (fun l =>
      if l.project_id = project_id then { l with stack_id := none } else l),
    stack_rows := db.stack_rows.filter (fun s => decide (¬s.project_id = project_id)) }

/-- Modelled from the spec: repository load_logical_photos_for_restack is
    called by the restack path but its definition is not under src.  Per the
    spec it loads the project's existing Logical Photos with their
    representative's capture time (the source ships the time as an rfc3339
    string whose round trip is the identity). -/
def load_logical_photos_for_restack (db : DB) (project_id : Nat) : List (Nat × Option Int) :=
  (db.logical_photos.filter (fun l => decide (l.project_id = project_id))).map
    (fun l => (l.id,
      ((db.photos.find? (fun p => decide (p.id = l.representative_photo_id))).bind
        (fun p => p.capture_time))))

/-- Modelled from the spec: repository update_logical_photo_stack is called
    by the restack path but its definition is not under src.  Per the spec it
    updates the stack link of one existing logical photo row in place. -/
def update_logical_photo_stack (db : DB) (lp_id stack_id : Nat) : DB :=
  { db with logical_photos := db.logical_photos.map (fun l =>
      if l.id = lp_id then { l with stack_id := some stack_id } else l) }

/-- C7: inserting a photo whose path already exists returns the existing row
    id and leaves the photos table unchanged, so every column of the existing
    row keeps its prior value regardless of the metadata arguments. -/
theorem C7_insert_photo_first_write_wins (db : DB) (path : PathM)
    (format : PhotoFormat) (capture_time : Option Int) (orientation : Option Nat)
    (camera_model lens : Option String) (r : PhotoRow)
    (hr : db.photos.find? (fun p => decide (p.path = path)) = some r) :
    (insert_photo db path format capture_time orientation camera_model lens).1 = db
    ∧ (insert_photo db path format capture_time orientation camera_model lens).2 = r.id
    ∧ r ∈ (insert_photo db path format capture_time orientation camera_model lens).1.photos := by
  have hmem := List.mem_of_find?_eq_some hr
  have hpred := List.find?_some hr
  have hany : db.photos.any (fun p => decide (p.path = path)) = true :=
    List.any_eq_true.mpr ⟨r, hmem, hpred⟩
  unfold insert_photo
  rw [if_pos hany]
  exact ⟨rfl, by simp [hr], hmem⟩

/-- Witness for C7: a one-row table, re-inserted with different metadata. -/
theorem C7_insert_photo_first_write_wins_witness :
    (insert_photo
      { photos := [{ id := 5, path := { dir := "d", stem := "s", ext := "jpg" },
                     format := PhotoFormat.jpeg, capture_time := some 7,
                     orientation := some 1, camera_model := some "A", lens := none,
                     logical_photo_id := none }],
        logical_photos := [], stack_rows := [] }
      { dir := "d", stem := "s", ext := "jpg" } PhotoFormat.raw (some 99) none none
      (some "L")).1
    = { photos := [{ id := 5, path := { dir := "d", stem := "s", ext := "jpg" },
                     format := PhotoFormat.jpeg, capture_time := some 7,
                     orientation := some 1, camera_model := some "A", lens := none,
                     logical_photo_id := none }],
        logical_photos := [], stack_rows := [] }
    ∧ (insert_photo
      { photos := [{ id := 5, path := { dir := "d", stem := "s", ext := "jpg" },
                     format := PhotoFormat.jpeg, capture_time := some 7,
                     orientation := some 1, camera_model := some "A", lens := none,
                     logical_photo_id := none }],
        logical_photos := [], stack_rows := [] }
      { dir := "d", stem := "s", ext := "jpg" } PhotoFormat.raw (some 99) none none
      (some "L")).2 = 5 := by
  have h := C7_insert_photo_first_write_wins
    { photos := [{ id := 5, path := { dir := "d", stem := "s", ext := "jpg" },
                   format := PhotoFormat.jpeg, capture_time := some 7,
                   orientation := some 1, camera_model := some "A", lens := none,
                   logical_photo_id := none }],
      logical_photos := [], stack_rows := [] }
    { dir := "d", stem := "s", ext := "jpg" } PhotoFormat.raw (some 99) none none
    (some "L")
    { id := 5, path := { dir := "d", stem := "s", ext := "jpg" },
      format := PhotoFormat.jpeg, capture_time := some 7,
      orientation := some 1, camera_model := some "A", lens := none,
      logical_photo_id := none }
    (by decide)
  exact ⟨h.1, h.2.1⟩

/-- ImportStats from photos/model.rs (the capped error log is modelled by
    its length only). -/
structure ImportStatsM where
  total_files_scanned : Nat
  imported : Nat
  skipped_existing : Nat
  errors : Nat
  pairs_detected : Nat
  stacks_generated : Nat
  logical_photos : Nat
  cancelled : Bool
deriving DecidableEq, Repr

/-- ImportStats::default. -/
def import_stats_default : ImportStatsM :=
  { total_files_scanned := 0, imported := 0, skipped_existing := 0, errors := 0,
    pairs_detected := 0, stacks_generated := 0, logical_photos := 0, cancelled := false }

/-- The restack walk over (logical photo id, capture time) pairs, identical
    in structure to the clusterer walk (pipeline.rs restack_from_existing_photos
    reimplements the consecutive-gap algorithm inline). -/
def id_walk (gap : Nat) : List (Nat × Int) → Nat → Option Int → List (Nat × Nat) × Nat
  | [], idx, _ => ([], idx)
  | (i, t) :: rest, idx, last =>
    let idx2 := step_idx gap idx last t
    let tail := id_walk gap rest idx2 (some t)
    ((i, idx2) :: tail.1, tail.2)

/-- The restack solo loop for untimed logical photos. -/
def solo_ids : List Nat → Nat → List (Nat × Nat)
  | [], _ => []
  | i :: rest, idx => (i, idx + 1) :: solo_ids rest (idx + 1)

/-- The sort key relation for the restack (sort_by_key on the capture time). -/
def id_time_rel (a b : Nat × Int) : Prop :=
  a.2 ≤ b.2

instance : DecidableRel id_time_rel := fun a b =>
  inferInstanceAs (Decidable (a.2 ≤ b.2))

/-- The seeded stack creation loop of restack_from_existing_photos: the first
    inserted stack gets the explicit id max_stack_id_before + 1 when that
    maximum is positive (so SQLite cannot reuse a deleted rowid); the rest use
    the ordinary insert. -/
def create_stacks_seeded (db : DB) (project_id mb : Nat) : Nat → DB × List Nat
  | 0 => (db, [])
  | n + 1 =>
    let prev := create_stacks_seeded db project_id mb n
    let ins :=
      if n = 0 ∧ 0 < mb then
        ({ prev.1 with stack_rows := prev.1.stack_rows
            ++ [{ id := mb + 1, project_id := project_id }] }, mb + 1)
      else insert_stack prev.1 project_id
    (ins.1, prev.2 ++ [ins.2])

/-- The update loop of restack_from_existing_photos: look each assignment's
    stack index up in the id map and update the logical photo's stack link. -/
def apply_assignments (db : DB) (assigns : List (Nat × Nat))
    (sid_map : List (Option Nat)) : DB :=
  assigns.foldl (fun db a =>
    match sid_map.getD a.2 none with
    | some sid => update_logical_photo_stack db a.1 sid
    | none => db) db

/-- The body of restack_from_existing_photos after its early return:
    clear this project's stacks, split the loaded rows into timed and
    untimed, sort, walk with the consecutive-gap rule, create the new stack
    rows (seeded) and update the stack links in place. -/
def restack_core (db : DB) (project_id gap mb : Nat)
    (lp_rows : List (Nat × Option Int)) : DB × ImportStatsM :=
  let db1 := clear_stacks_only db project_id
  let timed := lp_rows.filterMap (fun r => r.2.map (fun t => (r.1, t)))
  let untimed := (lp_rows.filter (fun r => r.2.isNone)).map Prod.fst
  let sorted := List.insertionSort id_time_rel timed
  let walked := id_walk gap sorted 0 none
  let assigns := walked.1 ++ solo_ids untimed walked.2
  let max_stack_idx := (((assigns.map Prod.snd).max?).map (· + 1)).getD 0
  let created := create_stacks_seeded db1 project_id mb max_stack_idx
  let sid_map : List (Option Nat) :=
    if max_stack_idx = 0 then [none] else created.2.map some
  let db2 := apply_assignments created.1 assigns sid_map
  (db2, { import_stats_default with
          logical_photos := lp_rows.length, stacks_generated := max_stack_idx })

/-- pipeline.rs restack_from_existing_photos: record the global maximum stack
    id, load the project's logical photos with their representative capture
    times, return immediately if there are none, else rebuild the stacks. -/
def restack_from_existing_photos (db : DB) (project_id gap : Nat) : DB × ImportStatsM :=
  let mb := max_nat (db.stack_rows.map (fun s => s.id))
  let lp_rows := load_logical_photos_for_restack db project_id
  if lp_rows.isEmpty then (db, import_stats_default)
  else restack_core db project_id gap mb lp_rows

/-- The identity-relevant projection of a logical photo row: everything
    except the mutable stack link. -/
def lp_key (l : LpRow) : Nat × Nat × Nat :=
  (l.id, l.project_id, l.representative_photo_id)

theorem update_lp_stack_photos (db : DB) (i s : Nat) :
    (update_logical_photo_stack db i s).photos = db.photos := rfl

theorem update_lp_stack_stack_rows (db : DB) (i s : Nat) :
    (update_logical_photo_stack db i s).stack_rows = db.stack_rows := rfl

theorem update_lp_stack_key (db : DB) (i s : Nat) :
    (update_logical_photo_stack db i s).logical_photos.map lp_key
      = db.logical_photos.map lp_key := by
  unfold update_logical_photo_stack
  simp only [List.map_map]
  apply List.map_congr_left
  intro l _
  by_cases h : l.id = i <;> simp [h, lp_key]

theorem apply_assignments_photos (assigns : List (Nat × Nat)) :
    ∀ (db : DB) (m : List (Option Nat)),
      (apply_assignments db assigns m).photos = db.photos := by
  induction assigns with
  | nil => intro db m; rfl
  | cons a rest ih =>
    intro db m
    unfold apply_assignments at ih ⊢
    simp only [List.foldl_cons]
    rcases h : m.getD a.2 none with _ | sid
    · simp only [h]
      exact ih db m
    · simp only [h]
      exact (ih _ m).trans (update_lp_stack_photos db a.1 sid)

theorem apply_assignments_stack_rows (assigns : List (Nat × Nat)) :
    ∀ (db : DB) (m : List (Option Nat)),
      (apply_assignments db assigns m).stack_rows = db.stack_rows := by
  induction assigns with
  | nil => intro db m; rfl
  | cons a rest ih =>
    intro db m
    unfold apply_assignments at ih ⊢
    simp only [List.foldl_cons]
    rcases h : m.getD a.2 none with _ | sid
    · simp only [h]
      exact ih db m
    · simp only [h]
      exact (ih _ m).trans (update_lp_stack_stack_rows db a.1 sid)

theorem apply_assignments_key (assigns : List (Nat × Nat)) :
    ∀ (db : DB) (m : List (Option Nat)),
      (apply_assignments db assigns m).logical_photos.map lp_key
        = db.logical_photos.map lp_key := by
  induction assigns with
  | nil => intro db m; rfl
  | cons a rest ih =>
    intro db m
    unfold apply_assignments at ih ⊢
    simp only [List.foldl_cons]
    rcases h : m.getD a.2 none with _ | sid
    · simp only [h]
      exact ih db m
    · simp only [h]
      exact (ih _ m).trans (update_lp_stack_key db a.1 sid)

theorem clear_stacks_only_photos (db : DB) (pid : Nat) :
    (clear_stacks_only db pid).photos = db.photos := rfl

theorem clear_stacks_only_key (db : DB) (pid : Nat) :
    (clear_stacks_only db pid).logical_photos.map lp_key
      = db.logical_photos.map lp_key := by
  unfold clear_stacks_only
  simp only [List.map_map]
  apply List.map_congr_left
  intro l _
  by_cases h : l.project_id = pid <;> simp [h, lp_key]

theorem create_stacks_seeded_succ (db1 : DB) (pid mb n : Nat) :
    create_stacks_seeded db1 pid mb (n + 1)
      = (let prev := create_stacks_seeded db1 pid mb n
         let ins :=
           if n = 0 ∧ 0 < mb then
             ({ prev.1 with stack_rows := prev.1.stack_rows
                 ++ [{ id := mb + 1, project_id := pid }] }, mb + 1)
           else insert_stack prev.1 pid
         (ins.1, prev.2 ++ [ins.2])) := rfl

theorem create_stacks_seeded_spec (db1 : DB) (pid mb : Nat) :
    ∀ n, ∃ newRows,
      (create_stacks_seeded db1 pid mb n).1.stack_rows = db1.stack_rows ++ newRows
      ∧ (∀ s ∈ newRows, mb < s.id)
      ∧ newRows.length = n
      ∧ (create_stacks_seeded db1 pid mb n).1.photos = db1.photos
      ∧ (create_stacks_seeded db1 pid mb n).1.logical_photos = db1.logical_photos := by
  intro n
  induction n with
  | zero => exact ⟨[], by simp [create_stacks_seeded], by simp, rfl, rfl, rfl⟩
  | succ n ih =>
    obtain ⟨newRows, hrows, hgt, hlen, hph, hlp⟩ := ih
    rw [create_stacks_seeded_succ]
    by_cases hcase : n = 0 ∧ 0 < mb
    · refine ⟨newRows ++ [{ id := mb + 1, project_id := pid }], ?_, ?_, ?_, ?_, ?_⟩
      · simp only [if_pos hcase]
        rw [hrows]
        simp
      · intro s hs
        rcases List.mem_append.mp hs with hs | hs
        · exact hgt s hs
        · simp at hs
          subst hs
          simp
      · simp [hlen]
      · simp only [if_pos hcase]
        exact hph
      · simp only [if_pos hcase]
        exact hlp
    · have hid : mb <
          max_nat ((create_stacks_seeded db1 pid mb n).1.stack_rows.map
            (fun s => s.id)) + 1 := by
        rcases Nat.eq_zero_or_pos mb with hz | hpos
        · omega
        · have hn : n ≠ 0 := fun h0 => hcase ⟨h0, hpos⟩
          rcases hnr : newRows with _ | ⟨r0, rrest⟩
          · rw [hnr] at hlen
            simp at hlen
            omega
          · have hr0 : r0 ∈ (create_stacks_seeded db1 pid mb n).1.stack_rows := by
              rw [hrows, hnr]; simp
            have h1 := le_max_nat ((create_stacks_seeded db1 pid mb n).1.stack_rows.map
              (fun s => s.id)) r0.id (List.mem_map.mpr ⟨r0, hr0, rfl⟩)
            have h2 := hgt r0 (by rw [hnr]; simp)
            omega
      refine ⟨newRows ++ [{
          id := max_nat ((create_stacks_seeded db1 pid mb n).1.stack_rows.map
            (fun s => s.id)) + 1, project_id := pid }], ?_, ?_, ?_, ?_, ?_⟩
      · simp only [if_neg hcase, insert_stack]
        rw [hrows]
        simp
      · intro s hs
        rcases List.mem_append.mp hs with hs | hs
        · exact hgt s hs
        · simp at hs
          subst hs
          exact hid
      · simp [hlen]
      · simp only [if_neg hcase, insert_stack]
        exact hph
      · simp only [if_neg hcase, insert_stack]
        exact hlp

theorem filter_map_id_of_key_eq :
    ∀ (l1 l2 : List LpRow) (pid : Nat), l1.map lp_key = l2.map lp_key →
      (l1.filter (fun l => decide (l.project_id = pid))).map (fun l => l.id)
        = (l2.filter (fun l => decide (l.project_id = pid))).map (fun l => l.id) := by
  intro l1
  induction l1 with
  | nil =>
    intro l2 pid h
    have : l2 = [] := by
      rcases l2 with _ | ⟨b, rest2⟩
      · rfl
      · simp at h
    rw [this]
  | cons a rest ih =>
    intro l2 pid h
    rcases l2 with _ | ⟨b, rest2⟩
    · simp at h
    · simp only [List.map_cons, List.cons.injEq] at h
      obtain ⟨hab, hrest⟩ := h
      unfold lp_key at hab
      simp at hab
      obtain ⟨hid, hproj, _⟩ := hab
      by_cases hp : a.project_id = pid
      · have hbp : b.project_id = pid := by rw [← hproj]; exact hp
        simp only [List.filter_cons, hp, hbp]
        simp only [decide_eq_true_eq, if_pos trivial, List.map_cons]
        rw [hid, ih rest2 pid hrest]
      · have hbp : ¬b.project_id = pid := by rw [← hproj]; exact hp
        simp only [List.filter_cons, hp, hbp]
        simp
        exact ih rest2 pid hrest

theorem restack_core_eq (db : DB) (pid gap mb : Nat) (lp_rows : List (Nat × Option Int)) :
    ∃ N assigns sid_map,
      restack_core db pid gap mb lp_rows
        = (apply_assignments
            (create_stacks_seeded (clear_stacks_only db pid) pid mb N).1 assigns sid_map,
           { import_stats_default with
             logical_photos := lp_rows.length, stacks_generated := N }) :=
  ⟨_, _, _, rfl⟩

/-- C4: restacking leaves the photos table untouched, preserves every
    logical photo row's id, project and representative (so the project still
    has exactly N logical photos with the same ids), reports N in the stats,
    and no stack id the project had before the restack appears among the
    project's stack ids afterwards.  The well-formedness hypothesis rules out
    a project that has stack rows but no logical photos, a state the pipeline
    never produces. -/
theorem C4_restack_preserves_identity (db : DB) (project_id gap : Nat)
    (hwf : ∀ s ∈ db.stack_rows, s.project_id = project_id →
        ∃ l ∈ db.logical_photos, l.project_id = project_id) :
    ((restack_from_existing_photos db project_id gap).1.photos = db.photos)
  ∧ ((restack_from_existing_photos db project_id gap).1.logical_photos.map lp_key
      = db.logical_photos.map lp_key)
  ∧ ((restack_from_existing_photos db project_id gap).2.logical_photos
      = (db.logical_photos.filter (fun l => decide (l.project_id = project_id))).length)
  ∧ (∀ s ∈ db.stack_rows, s.project_id = project_id →
      ∀ s2 ∈ (restack_from_existing_photos db project_id gap).1.stack_rows,
        s2.project_id = project_id → s.id ≠ s2.id) := by
  by_cases hemp : (load_logical_photos_for_restack db project_id).isEmpty
  · have hfe : db.logical_photos.filter (fun l => decide (l.project_id = project_id)) = [] := by
      unfold load_logical_photos_for_restack at hemp
      rw [List.isEmpty_iff] at hemp
      exact List.map_eq_nil_iff.mp hemp
    have hre : restack_from_existing_photos db project_id gap = (db, import_stats_default) := by
      unfold restack_from_existing_photos
      simp [hemp]
    rw [hre]
    refine ⟨rfl, rfl, by rw [hfe]; rfl, ?_⟩
    intro s hs hsp s2 _ _
    obtain ⟨l, hl, hlp⟩ := hwf s hs hsp
    have : l ∈ db.logical_photos.filter (fun l => decide (l.project_id = project_id)) :=
      List.mem_filter.mpr ⟨hl, by simp [hlp]⟩
    rw [hfe] at this
    simp at this
  · have hre : restack_from_existing_photos db project_id gap
        = restack_core db project_id gap (max_nat (db.stack_rows.map (fun s => s.id)))
            (load_logical_photos_for_restack db project_id) := by
      unfold restack_from_existing_photos
      simp [hemp]
    rw [hre]
    obtain ⟨N, assigns, sid_map, hcore⟩ := restack_core_eq db project_id gap
      (max_nat (db.stack_rows.map (fun s => s.id))) (load_logical_photos_for_restack db project_id)
    rw [hcore]
    obtain ⟨newRows, hrows, hgt, hlenN, hph, hlp⟩ :=
      create_stacks_seeded_spec (clear_stacks_only db project_id) project_id
        (max_nat (db.stack_rows.map (fun s => s.id))) N
    refine ⟨?_, ?_, ?_, ?_⟩
    · rw [apply_assignments_photos, hph]
      rfl
    · rw [apply_assignments_key, hlp]
      exact clear_stacks_only_key db project_id
    · show (load_logical_photos_for_restack db project_id).length = _
      unfold load_logical_photos_for_restack
      rw [List.length_map]
    · intro s hs hsp s2 hs2 hs2p
      have hsle : s.id ≤ max_nat (db.stack_rows.map (fun s => s.id)) :=
        le_max_nat _ s.id (List.mem_map.mpr ⟨s, hs, rfl⟩)
      rw [apply_assignments_stack_rows, hrows] at hs2
      rcases List.mem_append.mp hs2 with hs2 | hs2
      · have := (List.mem_filter.mp hs2).2
        simp at this
        exact absurd hs2p this
      · have := hgt s2 hs2
        omega

/-- A one-photo project used as the concrete restack witness. -/
def restack_demo_db : DB :=
  { photos := [{ id := 1, path := { dir := "d", stem := "s", ext := "jpg" },
                 format := PhotoFormat.jpeg, capture_time := some 10,
                 orientation := none, camera_model := none, lens := none,
                 logical_photo_id := some 1 }],
    logical_photos := [{ id := 1, project_id := 1, representative_photo_id := 1,
                         stack_id := some 1 }],
    stack_rows := [{ id := 1, project_id := 1 }] }

/-- Witness for C4: on the demo project the photos table survives a restack,
    the stats report one logical photo, and the old stack id 1 differs from
    the new stack id 2 that the restack produced. -/
theorem C4_restack_preserves_identity_witness :
    ((restack_from_existing_photos restack_demo_db 1 3).1.photos = restack_demo_db.photos)
    ∧ (restack_from_existing_photos restack_demo_db 1 3).2.logical_photos = 1
    ∧ ({ id := 1, project_id := 1 } : StackRow).id
        ≠ ({ id := 2, project_id := 1 } : StackRow).id := by
  have h := C4_restack_preserves_identity restack_demo_db 1 3 (by decide)
  refine ⟨h.1, ?_, ?_⟩
  · rw [h.2.2.1]
    decide
  · exact h.2.2.2 { id := 1, project_id := 1 } (by decide) rfl
      { id := 2, project_id := 1 } (by decide) rfl

/-- The model of a Rust str for exif.rs parse_exif_datetime: a list of
    unicode scalars; byte positions are determined by each scalar's UTF-8
    size.  str::len is the byte length. -/
def byte_len (s : List Char) : Nat :=
  (s.map Char.utf8Size).sum

/-- Whether a byte offset is a character boundary of the string (offsets
    past the end are not; offset 0 always is), as checked by Rust str
    slicing. -/
def is_boundary : Nat → List Char → Bool
  | 0, _ => true
  | _ + 1, [] => false
  | k + 1, c :: cs => if c.utf8Size ≤ k + 1 then is_boundary (k + 1 - c.utf8Size) cs else false

/-- Drop the first k bytes of a string; a Rust byte slice panics (error)
    when k is not a character boundary. -/
def drop_bytes : Nat → List Char → Except Unit (List Char)
  | 0, s => .ok s
  | _ + 1, [] => .error ()
  | k + 1, c :: cs =>
    if c.utf8Size ≤ k + 1 then drop_bytes (k + 1 - c.utf8Size) cs else .error ()

/-- Take the first k bytes of a string; a Rust byte slice panics (error)
    when k is not a character boundary. -/
def take_bytes : Nat → List Char → Except Unit (List Char)
  | 0, _ => .ok []
  | _ + 1, [] => .error ()
  | k + 1, c :: cs =>
    if c.utf8Size ≤ k + 1 then
      match take_bytes (k + 1 - c.utf8Size) cs with
      | .ok l => .ok (c :: l)
      | .error e => .error e
    else .error ()

/-- Rust str byte slicing s[a..b]: drop a bytes then take b - a bytes,
    panicking when either end is not a character boundary. -/
def byte_slice (a b : Nat) (s : List Char) : Except Unit (List Char) :=
  match drop_bytes a s with
  | .ok t => take_bytes (b - a) t
  | .error e => .error e

/-- The naive datetime value parse_exif_datetime produces. -/
structure ExifDateTime where
  year : Nat
  month : Nat
  day : Nat
  hour : Nat
  minute : Nat
  second : Nat
deriving DecidableEq, Repr

/-- Proleptic Gregorian leap years, as chrono uses. -/
def is_leap (y : Nat) : Bool :=
  (y % 4 == 0 && y % 100 != 0) || y % 400 == 0

/-- Days in a month of the proleptic Gregorian calendar. -/
def days_in_month (y m : Nat) : Nat :=
  match m with
  | 1 => 31
  | 2 => if is_leap y then 29 else 28
  | 3 => 31
  | 4 => 30
  | 5 => 31
  | 6 => 30
  | 7 => 31
  | 8 => 31
  | 9 => 30
  | 10 => 31
  | 11 => 30
  | 12 => 31
  | _ => 0

/-- The numeric value of a decimal digit character. -/
def digit_val (c : Char) : Nat :=
  c.toNat - '0'.toNat

/-- chrono NaiveDateTime::parse_from_str with format %Y-%m-%d %H:%M:%S,
    modelled on the zero-padded 19-character shape that the caller's
    fixed-width slices produce: four year digits, dash, two month digits,
    dash, two day digits, space, and a zero-padded time; the date and time
    must be a valid proleptic Gregorian calendar date and a valid time of
    day. -/
def parse_naive_datetime (s : List Char) : Option ExifDateTime :=
  match s with
  | [y1, y2, y3, y4, h1, m1, m2, h2, d1, d2, sp, a1, a2, q1, b1, b2, q2, e1, e2] =>
    if y1.isDigit = true ∧ y2.isDigit = true ∧ y3.isDigit = true ∧ y4.isDigit = true
        ∧ h1 = '-' ∧ m1.isDigit = true ∧ m2.isDigit = true ∧ h2 = '-'
        ∧ d1.isDigit = true ∧ d2.isDigit = true ∧ sp = ' '
        ∧ a1.isDigit = true ∧ a2.isDigit = true ∧ q1 = ':'
        ∧ b1.isDigit = true ∧ b2.isDigit = true ∧ q2 = ':'
        ∧ e1.isDigit = true ∧ e2.isDigit = true then
      let y := 1000 * digit_val y1 + 100 * digit_val y2 + 10 * digit_val y3 + digit_val y4
      let mo := 10 * digit_val m1 + digit_val m2
      let da := 10 * digit_val d1 + digit_val d2
      let h := 10 * digit_val a1 + digit_val a2
      let mi := 10 * digit_val b1 + digit_val b2
      let se := 10 * digit_val e1 + digit_val e2
      if 1 ≤ mo ∧ mo ≤ 12 ∧ 1 ≤ da ∧ da ≤ days_in_month y mo
          ∧ h ≤ 23 ∧ mi ≤ 59 ∧ se ≤ 59 then
        some { year := y, month := mo, day := da, hour := h, minute := mi, second := se }
      else none
    else none
  | _ => none

/-- exif.rs parse_exif_datetime: return None for inputs shorter than 19
    bytes; otherwise byte-slice the date part s[..10] and the time part
    s[11..19] (these slices panic on non-boundary offsets), replace the
    colons of the date part with dashes, and parse the normalized string. -/
def parse_exif_datetime (s : List Char) : Except Unit (Option ExifDateTime) :=
  if byte_len s < 19 then .ok none
  else
    match byte_slice 0 10 s with
    | .error e => .error e
    | .ok date_part =>
      match byte_slice 11 19 s with
      | .error e => .error e
      | .ok time_part =>
        let date := date_part.map (fun c => if c = ':' then '-' else c)
        .ok (parse_naive_datetime (date ++ [' '] ++ time_part))

theorem drop_bytes_ok_iff : ∀ (s : List Char) (k : Nat),
    (∃ t, drop_bytes k s = .ok t) ↔ is_boundary k s = true := by
  intro s
  induction s with
  | nil =>
    intro k
    rcases k with _ | k
    · simp [drop_bytes, is_boundary]
    · simp [drop_bytes, is_boundary]
  | cons c cs ih =>
    intro k
    rcases k with _ | k
    · simp [drop_bytes, is_boundary]
    · by_cases h : c.utf8Size ≤ k + 1
      · simp only [drop_bytes, is_boundary, if_pos h]
        exact ih (k + 1 - c.utf8Size)
      · simp [drop_bytes, is_boundary, if_neg h]

theorem take_bytes_ok_iff : ∀ (s : List Char) (k : Nat),
    (∃ t, take_bytes k s = .ok t) ↔ is_boundary k s = true := by
  intro s
  induction s with
  | nil =>
    intro k
    rcases k with _ | k
    · simp [take_bytes, is_boundary]
    · simp [take_bytes, is_boundary]
  | cons c cs ih =>
    intro k
    rcases k with _ | k
    · simp [take_bytes, is_boundary]
    · by_cases h : c.utf8Size ≤ k + 1
      · simp only [take_bytes, is_boundary, if_pos h]
        constructor
        · intro ⟨t, ht⟩
          rcases hrec : take_bytes (k + 1 - c.utf8Size) cs with e | l
          · rw [hrec] at ht
            simp at ht
          · exact (ih _).mp ⟨l, hrec⟩
        · intro hb
          obtain ⟨l, hl⟩ := (ih _).mpr hb
          exact ⟨c :: l, by rw [hl]⟩
      · simp [take_bytes, is_boundary, if_neg h]

theorem boundary_drop : ∀ (s : List Char) (k : Nat) (t : List Char),
    drop_bytes k s = .ok t → ∀ m, is_boundary m t = is_boundary (k + m) s := by
  intro s
  induction s with
  | nil =>
    intro k t hk m
    rcases k with _ | k
    · simp [drop_bytes] at hk
      rw [← hk, Nat.zero_add]
    · simp [drop_bytes] at hk
  | cons c cs ih =>
    intro k t hk m
    rcases k with _ | k
    · simp [drop_bytes] at hk
      rw [← hk, Nat.zero_add]
    · by_cases h : c.utf8Size ≤ k + 1
      · simp only [drop_bytes, if_pos h] at hk
        have := ih (k + 1 - c.utf8Size) t hk m
        rw [this]
        have hle : c.utf8Size ≤ k + 1 + m := by omega
        rcases hm : k + 1 + m with _ | km
        · omega
        · simp only [is_boundary, if_pos (by omega : c.utf8Size ≤ km + 1)]
          congr 1
          omega
      · simp [drop_bytes, if_neg h] at hk

theorem utf8Size_of_isDigit (c : Char) (h : c.isDigit = true) : c.utf8Size = 1 := by
  simp [Char.isDigit] at h
  unfold Char.utf8Size
  have hle : c.val ≤ 0x7F := by
    rcases h with ⟨h1, h2⟩
    exact UInt32.le_trans h2 (by decide)
  simp [hle]

theorem replace_digit (c : Char) (h : c.isDigit = true) :
    (if c = ':' then '-' else c) = c := by
  rw [if_neg]
  intro he
  rw [he] at h
  simp [Char.isDigit] at h

theorem parse_exif_datetime_short (s : List Char) (h : byte_len s < 19) :
    parse_exif_datetime s = .ok none := by
  unfold parse_exif_datetime
  rw [if_pos h]

theorem parse_exif_datetime_panic_iff (s : List Char) (h : 19 ≤ byte_len s) :
    (∃ o, parse_exif_datetime s = .ok o) ↔
      (is_boundary 10 s = true ∧ is_boundary 11 s = true ∧ is_boundary 19 s = true) := by
  unfold parse_exif_datetime
  rw [if_neg (by omega)]
  have h010 : byte_slice 0 10 s = take_bytes 10 s := by
    simp [byte_slice, drop_bytes]
  rw [h010]
  constructor
  · intro ⟨o, ho⟩
    rcases h10 : take_bytes 10 s with e | dp
    · rw [h10] at ho
      simp at ho
    · rw [h10] at ho
      have hb10 : is_boundary 10 s = true := (take_bytes_ok_iff s 10).mp ⟨dp, h10⟩
      rcases h11 : byte_slice 11 19 s with e | tp
      · rw [h11] at ho
        simp at ho
      · unfold byte_slice at h11
        rcases hd : drop_bytes 11 s with e | u
        · rw [hd] at h11
          simp at h11
        · rw [hd] at h11
          have hb11 : is_boundary 11 s = true := (drop_bytes_ok_iff s 11).mp ⟨u, hd⟩
          have hb19 : is_boundary 19 s = true := by
            have := boundary_drop s 11 u hd 8
            have h8 : is_boundary 8 u = true := (take_bytes_ok_iff u 8).mp ⟨tp, h11⟩
            rw [this] at h8
            exact h8
          exact ⟨hb10, hb11, hb19⟩
  · intro ⟨hb10, hb11, hb19⟩
    obtain ⟨dp, hdp⟩ := (take_bytes_ok_iff s 10).mpr hb10
    obtain ⟨u, hu⟩ := (drop_bytes_ok_iff s 11).mpr hb11
    have h8 : is_boundary 8 u = true := by
      rw [boundary_drop s 11 u hu 8]
      exact hb19
    obtain ⟨tp, htp⟩ := (take_bytes_ok_iff u 8).mpr h8
    have h11 : byte_slice 11 19 s = .ok tp := by
      unfold byte_slice
      rw [hu]
      exact htp
    rw [hdp, h11]
    exact ⟨_, rfl⟩

theorem parse_exif_datetime_valid
    (y1 y2 y3 y4 m1 m2 d1 d2 a1 a2 b1 b2 e1 e2 : Char) (rest : List Char)
    (hy1 : y1.isDigit = true) (hy2 : y2.isDigit = true)
    (hy3 : y3.isDigit = true) (hy4 : y4.isDigit = true)
    (hm1 : m1.isDigit = true) (hm2 : m2.isDigit = true)
    (hd1 : d1.isDigit = true) (hd2 : d2.isDigit = true)
    (ha1 : a1.isDigit = true) (ha2 : a2.isDigit = true)
    (hb1 : b1.isDigit = true) (hb2 : b2.isDigit = true)
    (he1 : e1.isDigit = true) (he2 : e2.isDigit = true)
    (hmo1 : 1 ≤ 10 * digit_val m1 + digit_val m2)
    (hmo2 : 10 * digit_val m1 + digit_val m2 ≤ 12)
    (hda1 : 1 ≤ 10 * digit_val d1 + digit_val d2)
    (hda2 : 10 * digit_val d1 + digit_val d2
      ≤ days_in_month
          (1000 * digit_val y1 + 100 * digit_val y2 + 10 * digit_val y3 + digit_val y4)
          (10 * digit_val m1 + digit_val m2))
    (hho : 10 * digit_val a1 + digit_val a2 ≤ 23)
    (hmi : 10 * digit_val b1 + digit_val b2 ≤ 59)
    (hse : 10 * digit_val e1 + digit_val e2 ≤ 59) :
    parse_exif_datetime
      ([y1, y2, y3, y4, ':', m1, m2, ':', d1, d2, ' ', a1, a2, ':', b1, b2, ':', e1, e2] ++ rest)
      = .ok (some
        { year := 1000 * digit_val y1 + 100 * digit_val y2 + 10 * digit_val y3 + digit_val y4,
          month := 10 * digit_val m1 + digit_val m2,
          day := 10 * digit_val d1 + digit_val d2,
          hour := 10 * digit_val a1 + digit_val a2,
          minute := 10 * digit_val b1 + digit_val b2,
          second := 10 * digit_val e1 + digit_val e2 }) := by
  have s1 := utf8Size_of_isDigit y1 hy1
  have s2 := utf8Size_of_isDigit y2 hy2
  have s3 := utf8Size_of_isDigit y3 hy3
  have s4 := utf8Size_of_isDigit y4 hy4
  have s5 := utf8Size_of_isDigit m1 hm1
  have s6 := utf8Size_of_isDigit m2 hm2
  have s7 := utf8Size_of_isDigit d1 hd1
  have s8 := utf8Size_of_isDigit d2 hd2
  have s9 := utf8Size_of_isDigit a1 ha1
  have s10 := utf8Size_of_isDigit a2 ha2
  have s11 := utf8Size_of_isDigit b1 hb1
  have s12 := utf8Size_of_isDigit b2 hb2
  have s13 := utf8Size_of_isDigit e1 he1
  have s14 := utf8Size_of_isDigit e2 he2
  have scolon : (':' : Char).utf8Size = 1 := by decide
  have sspace : (' ' : Char).utf8Size = 1 := by decide
  have hlen : byte_len
      ([y1, y2, y3, y4, ':', m1, m2, ':', d1, d2, ' ', a1, a2, ':', b1, b2, ':', e1, e2] ++ rest)
      = 19 + byte_len rest := by
    simp [byte_len, s1, s2, s3, s4, s5, s6, s7, s8, s9, s10, s11, s12, s13, s14,
      scolon, sspace]
    omega
  unfold parse_exif_datetime
  rw [if_neg (by omega)]
  have hslice1 : byte_slice 0 10
      ([y1, y2, y3, y4, ':', m1, m2, ':', d1, d2, ' ', a1, a2, ':', b1, b2, ':', e1, e2] ++ rest)
      = .ok [y1, y2, y3, y4, ':', m1, m2, ':', d1, d2] := by
    simp [byte_slice, drop_bytes, take_bytes,
      s1, s2, s3, s4, s5, s6, s7, s8, scolon]
  have hslice2 : byte_slice 11 19
      ([y1, y2, y3, y4, ':', m1, m2, ':', d1, d2, ' ', a1, a2, ':', b1, b2, ':', e1, e2] ++ rest)
      = .ok [a1, a2, ':', b1, b2, ':', e1, e2] := by
    simp [byte_slice, drop_bytes, take_bytes,
      s1, s2, s3, s4, s5, s6, s7, s8, s9, s10, s11, s12, s13, s14, scolon, sspace]
  rw [hslice1, hslice2]
  simp only [List.map_cons, List.map_nil,
    replace_digit y1 hy1, replace_digit y2 hy2, replace_digit y3 hy3, replace_digit y4 hy4,
    replace_digit m1 hm1, replace_digit m2 hm2, replace_digit d1 hd1, replace_digit d2 hd2,
    if_pos rfl]
  show Except.ok (parse_naive_datetime
    [y1, y2, y3, y4, '-', m1, m2, '-', d1, d2, ' ', a1, a2, ':', b1, b2, ':', e1, e2]) = _
  simp only [parse_naive_datetime]
  rw [if_pos ⟨hy1, hy2, hy3, hy4, trivial, hm1, hm2, trivial, hd1, hd2, trivial,
    ha1, ha2, trivial, hb1, hb2, trivial, he1, he2⟩]
  rw [if_pos ⟨hmo1, hmo2, hda1, hda2, hho, hmi, hse⟩]

/-- C10 counterexample: a 19-byte string whose byte offset 10 falls inside
    the two-byte character at position 9, so the date slice panics. -/
theorem C10_counterexample_non_boundary :
    parse_exif_datetime
      ['a', 'a', 'a', 'a', 'a', 'a', 'a', 'a', 'a', 'β', 'a', 'a', 'a', 'a', 'a', 'a', 'a', 'a']
      = .error () := by rfl

/-- C10 amended: parse_exif_datetime returns None for strings shorter than
    19 bytes and parses valid zero-padded YYYY:MM:DD HH:MM:SS prefixes, but
    for strings of at least 19 bytes it returns without panicking exactly
    when the byte offsets 10, 11 and 19 are character boundaries; on a
    non-boundary offset the byte slice panics (the error case). -/
theorem C10_parse_exif_datetime_amended :
    (∀ s : List Char, byte_len s < 19 → parse_exif_datetime s = .ok none)
  ∧ (∀ s : List Char, 19 ≤ byte_len s →
      ((∃ o, parse_exif_datetime s = .ok o) ↔
        (is_boundary 10 s = true ∧ is_boundary 11 s = true ∧ is_boundary 19 s = true)))
  ∧ (∀ (y1 y2 y3 y4 m1 m2 d1 d2 a1 a2 b1 b2 e1 e2 : Char) (rest : List Char),
      y1.isDigit = true → y2.isDigit = true → y3.isDigit = true → y4.isDigit = true →
      m1.isDigit = true → m2.isDigit = true → d1.isDigit = true → d2.isDigit = true →
      a1.isDigit = true → a2.isDigit = true → b1.isDigit = true → b2.isDigit = true →
      e1.isDigit = true → e2.isDigit = true →
      1 ≤ 10 * digit_val m1 + digit_val m2 →
      10 * digit_val m1 + digit_val m2 ≤ 12 →
      1 ≤ 10 * digit_val d1 + digit_val d2 →
      10 * digit_val d1 + digit_val d2
        ≤ days_in_month
            (1000 * digit_val y1 + 100 * digit_val y2 + 10 * digit_val y3 + digit_val y4)
            (10 * digit_val m1 + digit_val m2) →
      10 * digit_val a1 + digit_val a2 ≤ 23 →
      10 * digit_val b1 + digit_val b2 ≤ 59 →
      10 * digit_val e1 + digit_val e2 ≤ 59 →
      parse_exif_datetime
        ([y1, y2, y3, y4, ':', m1, m2, ':', d1, d2, ' ', a1, a2, ':', b1, b2, ':', e1, e2] ++ rest)
        = .ok (some
          { year := 1000 * digit_val y1 + 100 * digit_val y2 + 10 * digit_val y3 + digit_val y4,
            month := 10 * digit_val m1 + digit_val m2,
            day := 10 * digit_val d1 + digit_val d2,
            hour := 10 * digit_val a1 + digit_val a2,
            minute := 10 * digit_val b1 + digit_val b2,
            second := 10 * digit_val e1 + digit_val e2 })) :=
  ⟨parse_exif_datetime_short, parse_exif_datetime_panic_iff,
    fun y1 y2 y3 y4 m1 m2 d1 d2 a1 a2 b1 b2 e1 e2 rest =>
      parse_exif_datetime_valid y1 y2 y3 y4 m1 m2 d1 d2 a1 a2 b1 b2 e1 e2 rest⟩

/-- Witness for C10 amended: the canonical test vector parses to the
    expected datetime, and a short string parses to None. -/
theorem C10_parse_exif_datetime_amended_witness :
    parse_exif_datetime
      ['2', '0', '2', '4', ':', '0', '3', ':', '1', '5', ' ', '1', '2', ':', '3', '0', ':', '4', '5']
      = .ok (some { year := 2024, month := 3, day := 15, hour := 12, minute := 30, second := 45 })
    ∧ parse_exif_datetime ['s', 'h', 'o', 'r', 't'] = .ok none := by
  constructor
  · have h := C10_parse_exif_datetime_amended.2.2
      '2' '0' '2' '4' '0' '3' '1' '5' '1' '2' '3' '0' '4' '5' []
      (by decide) (by decide) (by decide) (by decide) (by decide) (by decide)
      (by decide) (by decide) (by decide) (by decide) (by decide) (by decide)
      (by decide) (by decide) (by decide) (by decide) (by decide) (by decide)
      (by decide) (by decide) (by decide)
    simpa [digit_val] using h
  · exact C10_parse_exif_datetime_amended.1 ['s', 'h', 'o', 'r', 't'] (by decide)

/-- ExifData from import/exif.rs, with capture times as parsed datetimes. -/
structure ExifDataM where
  capture_time : Option ExifDateTime
  camera_model : Option String
  lens : Option String
  orientation : Option Nat
deriving DecidableEq, Repr

/-- ExifData::empty. -/
def exif_data_empty : ExifDataM :=
  { capture_time := none, camera_model := none, lens := none, orientation := none }

/-- The raw tag values a parsed JPEG EXIF container yields to exif.rs:
    DateTimeOriginal as a raw string (only present when the tag is Ascii and
    valid UTF-8), Model and LensModel likewise, and the Orientation short. -/
structure JpegExifFields where
  date_time_original : Option (List Char)
  model : Option String
  lens : Option String
  orientation : Option Nat

/-- What the kamadak-exif library does for one file: it can panic, the file
    can fail to open, the container can fail to parse, or fields come back. -/
inductive JpegExifOutcome where
  | panic : JpegExifOutcome
  | open_error : JpegExifOutcome
  | container_error : JpegExifOutcome
  | fields : JpegExifFields → JpegExifOutcome

/-- exif.rs read_ascii_tag: trim the string; an empty trim becomes absent. -/
def read_ascii_tag (v : Option String) : Option String :=
  v.bind (fun s => let t := s.trim; if t = "" then none else some t)

/-- exif.rs extract_jpeg_exif_inner over the library outcome: failures give
    the empty record; a panic (from the library or from the datetime parse)
    propagates as the Except error. -/
def extract_jpeg_exif_inner : JpegExifOutcome → Except Unit ExifDataM
  | .panic => .error ()
  | .open_error => .ok exif_data_empty
  | .container_error => .ok exif_data_empty
  | .fields f =>
    match f.date_time_original with
    | none => .ok { capture_time := none, camera_model := read_ascii_tag f.model,
                    lens := read_ascii_tag f.lens, orientation := f.orientation }
    | some s =>
      match parse_exif_datetime s with
      | .error e => .error e
      | .ok ct => .ok { capture_time := ct, camera_model := read_ascii_tag f.model,
                        lens := read_ascii_tag f.lens, orientation := f.orientation }

/-- exif.rs extract_jpeg_exif: catch_unwind around the inner extraction,
    converting a panic into the all-absent record. -/
def extract_jpeg_exif (o : JpegExifOutcome) : ExifDataM :=
  match extract_jpeg_exif_inner o with
  | .ok d => d
  | .error _ => exif_data_empty

/-- The metadata rawler yields for a RAW file. -/
structure RawMetadata where
  date_time_original : Option (List Char)
  make : String
  model : String
  lens_model : Option String
  orientation : Option Nat

/-- What the rawler library does for one file. -/
inductive RawExifOutcome where
  | panic : RawExifOutcome
  | source_error : RawExifOutcome
  | decoder_error : RawExifOutcome
  | metadata_error : RawExifOutcome
  | metadata : RawMetadata → RawExifOutcome

/-- exif.rs camera model combination for RAW files: collapse the make prefix
    when the model already contains it. -/
def combine_make_model (make model : String) : Option String :=
  let mk := make.trim
  let md := model.trim
  if md = "" ∧ mk = "" then none
  else if md = "" then some mk
  else if mk = "" ∨ md.startsWith mk then some md
  else some (mk ++ " " ++ md)

/-- exif.rs extract_raw_exif_inner over the library outcome. -/
def extract_raw_exif_inner : RawExifOutcome → Except Unit ExifDataM
  | .panic => .error ()
  | .source_error => .ok exif_data_empty
  | .decoder_error => .ok exif_data_empty
  | .metadata_error => .ok exif_data_empty
  | .metadata m =>
    match m.date_time_original with
    | none => .ok { capture_time := none,
                    camera_model := combine_make_model m.make m.model,
                    lens := (m.lens_model.map String.trim).filter (fun s => s ≠ ""),
                    orientation := m.orientation }
    | some s =>
      match parse_exif_datetime s with
      | .error e => .error e
      | .ok ct => .ok { capture_time := ct,
                        camera_model := combine_make_model m.make m.model,
                        lens := (m.lens_model.map String.trim).filter (fun s => s ≠ ""),
                        orientation := m.orientation }

/-- exif.rs extract_raw_exif: catch_unwind around the inner extraction. -/
def extract_raw_exif (o : RawExifOutcome) : ExifDataM :=
  match extract_raw_exif_inner o with
  | .ok d => d
  | .error _ => exif_data_empty

/-- exif.rs extract_exif: dispatch on the declared format. -/
def extract_exif (format : PhotoFormat) (jo : JpegExifOutcome) (ro : RawExifOutcome) : ExifDataM :=
  match format with
  | .jpeg => extract_jpeg_exif jo
  | .raw => extract_raw_exif ro

/-- C8: extraction always lands in a plain ExifData record — the dispatch is
    total, any panic of the inner extraction (including one raised inside the
    datetime parse) and any open, container, decoder or metadata failure all
    collapse to the record whose four fields are absent. -/
theorem C8_extract_exif_never_raises :
    (∀ (jo : JpegExifOutcome) (ro : RawExifOutcome),
        extract_exif PhotoFormat.jpeg jo ro = extract_jpeg_exif jo
      ∧ extract_exif PhotoFormat.raw jo ro = extract_raw_exif ro)
  ∧ (∀ jo, extract_jpeg_exif_inner jo = .error () → extract_jpeg_exif jo = exif_data_empty)
  ∧ (extract_jpeg_exif .panic = exif_data_empty
      ∧ extract_jpeg_exif .open_error = exif_data_empty
      ∧ extract_jpeg_exif .container_error = exif_data_empty)
  ∧ (∀ (f : JpegExifFields) (s : List Char), f.date_time_original = some s →
        parse_exif_datetime s = .error () →
        extract_jpeg_exif (.fields f) = exif_data_empty)
  ∧ (∀ ro, extract_raw_exif_inner ro = .error () → extract_raw_exif ro = exif_data_empty)
  ∧ (extract_raw_exif .panic = exif_data_empty
      ∧ extract_raw_exif .source_error = exif_data_empty
      ∧ extract_raw_exif .decoder_error = exif_data_empty
      ∧ extract_raw_exif .metadata_error = exif_data_empty)
  ∧ (exif_data_empty.capture_time = none ∧ exif_data_empty.camera_model = none
      ∧ exif_data_empty.lens = none ∧ exif_data_empty.orientation = none) := by
  refine ⟨fun jo ro => ⟨rfl, rfl⟩, ?_, ⟨rfl, rfl, rfl⟩, ?_, ?_, ⟨rfl, rfl, rfl, rfl⟩,
    ⟨rfl, rfl, rfl, rfl⟩⟩
  · intro jo h
    unfold extract_jpeg_exif
    rw [h]
  · intro f s hf hp
    unfold extract_jpeg_exif extract_jpeg_exif_inner
    simp only [hf, hp]
  · intro ro h
    unfold extract_raw_exif
    rw [h]

/-- Witness for C8: a panicking datetime parse inside otherwise healthy
    fields still produces the all-absent record. -/
theorem C8_extract_exif_never_raises_witness :
    extract_jpeg_exif (.fields
      { date_time_original := some
          ['a', 'a', 'a', 'a', 'a', 'a', 'a', 'a', 'a', 'β', 'a', 'a', 'a', 'a', 'a', 'a', 'a', 'a'],
        model := some "Canon", lens := none, orientation := some 1 })
      = exif_data_empty :=
  C8_extract_exif_never_raises.2.2.2.1
    { date_time_original := some
        ['a', 'a', 'a', 'a', 'a', 'a', 'a', 'a', 'a', 'β', 'a', 'a', 'a', 'a', 'a', 'a', 'a', 'a'],
      model := some "Canon", lens := none, orientation := some 1 }
    ['a', 'a', 'a', 'a', 'a', 'a', 'a', 'a', 'a', 'β', 'a', 'a', 'a', 'a', 'a', 'a', 'a', 'a']
    rfl (by rfl)

/-- What the image environment does for one thumbnail job: the embedded
    EXIF preview extraction result, the in-memory decoder (dimensions on
    success), the full-file decode, the largest embedded RAW jpeg, and
    whether each save (including its parent-directory creation) succeeds. -/
structure ThumbEnv where
  embedded : Option (List Nat)
  decode_mem : List Nat → Option (Nat × Nat)
  full_decode : Option (Nat × Nat)
  raw_embedded : Option (List Nat)
  save_emb_ok : Bool
  save_full_ok : Bool
  save_raw_ok : Bool

/-- The documented contract of image resize_to_fill: the output always has
    exactly the requested dimensions (crop to fill, never letterboxed). -/
def resize_to_fill (w h : Nat) (img : Nat × Nat) : Nat × Nat :=
  (w, h)

/-- thumbnails.rs apply_orientation, tracked at the dimension level:
    3 rotates 180 degrees (same dimensions), 6 and 8 rotate 90 or 270
    (swapped dimensions), mirror codes are logged and left unrotated. -/
def apply_orientation (img : Nat × Nat) (o : Option Nat) : Nat × Nat :=
  match o with
  | some n => if n = 3 then img else if n = 6 then (img.2, img.1)
      else if n = 8 then (img.2, img.1) else img
  | none => img

/-- thumbnails.rs generate_thumbnail_from_image: resize to fill 256 by 256,
    apply the orientation, save; returns the saved path (with the written
    dimensions tracked alongside), or none when the save fails. -/
def generate_thumbnail_from_image (img : Nat × Nat) (out_path : List String)
    (o : Option Nat) (save_ok : Bool) : Option (List String × (Nat × Nat)) :=
  let resized := resize_to_fill 256 256 img
  let thumb := apply_orientation resized o
  if save_ok then some (out_path, thumb) else none

/-- thumbnails.rs generate_jpeg_thumbnail, fallback half: fully decode the
    source and produce the thumbnail from it. -/
def jpeg_full_fallback (env : ThumbEnv) (out_path : List String)
    (o : Option Nat) : Option (List String × (Nat × Nat)) :=
  match env.full_decode with
  | some img => generate_thumbnail_from_image img out_path o env.save_full_ok
  | none => none

/-- thumbnails.rs generate_jpeg_thumbnail: use the embedded EXIF preview
    when it extracts, decodes, and its shorter side is at least 200 pixels;
    in every other case (including a failed save on the embedded attempt)
    fall back to the full decode. -/
def generate_jpeg_thumbnail (env : ThumbEnv) (out_path : List String)
    (o : Option Nat) : Option (List String × (Nat × Nat)) :=
  match env.embedded with
  | some bytes =>
    match env.decode_mem bytes with
    | some img =>
      if 200 ≤ min img.1 img.2 then
        match generate_thumbnail_from_image img out_path o env.save_emb_ok with
        | some r => some r
        | none => jpeg_full_fallback env out_path o
      else jpeg_full_fallback env out_path o
    | none => jpeg_full_fallback env out_path o
  | none => jpeg_full_fallback env out_path o

/-- thumbnails.rs generate_raw_thumbnail: decode the largest embedded RAW
    jpeg preview and produce the thumbnail with no orientation applied. -/
def generate_raw_thumbnail (env : ThumbEnv) (out_path : List String) :
    Option (List String × (Nat × Nat)) :=
  match env.raw_embedded with
  | some bytes =>
    match env.decode_mem bytes with
    | some img => generate_thumbnail_from_image img out_path none env.save_raw_ok
    | none => none
  | none => none

/-- thumbnails.rs generate_thumbnail_inner: the output path is
    cache_dir/<logical_photo_id>.jpg and the format picks the strategy. -/
def generate_thumbnail_inner (env : ThumbEnv) (format : PhotoFormat)
    (logical_photo_id : Int) (cache_dir : List String) (orientation : Option Nat) :
    Option (List String × (Nat × Nat)) :=
  let out_path := cache_dir ++ [toString logical_photo_id ++ ".jpg"]
  match format with
  | .jpeg => generate_jpeg_thumbnail env out_path orientation
  | .raw => generate_raw_thumbnail env out_path

theorem apply_orientation_square (o : Option Nat) :
    apply_orientation (256, 256) o = (256, 256) := by
  unfold apply_orientation
  rcases o with _ | n
  · rfl
  · by_cases h3 : n = 3 <;> by_cases h6 : n = 6 <;> by_cases h8 : n = 8 <;>
      simp [h3, h6, h8]

theorem gen_from_image_eq (img : Nat × Nat) (out : List String) (o : Option Nat) (sv : Bool) :
    generate_thumbnail_from_image img out o sv
      = if sv then some (out, (256, 256)) else none := by
  simp only [generate_thumbnail_from_image, resize_to_fill]
  rw [apply_orientation_square]

theorem jpeg_full_fallback_eq (env : ThumbEnv) (out : List String) (o : Option Nat) :
    jpeg_full_fallback env out o
      = if env.full_decode.isSome ∧ env.save_full_ok then some (out, (256, 256)) else none := by
  unfold jpeg_full_fallback
  rcases hf : env.full_decode with _ | img
  · simp
  · simp only [gen_from_image_eq]
    rcases hs : env.save_full_ok <;> simp [hs]

theorem gen_jpeg_gate_pass (env : ThumbEnv) (out : List String) (o : Option Nat)
    (bytes : List Nat) (img : Nat × Nat)
    (he : env.embedded = some bytes) (hd : env.decode_mem bytes = some img)
    (hge : 200 ≤ min img.1 img.2) :
    generate_jpeg_thumbnail env out o
      = if env.save_emb_ok then some (out, (256, 256))
        else jpeg_full_fallback env out o := by
  unfold generate_jpeg_thumbnail
  simp only [he, hd, if_pos hge, gen_from_image_eq]
  rcases hs : env.save_emb_ok <;> simp [hs]

theorem gen_jpeg_gate_fail (env : ThumbEnv) (out : List String) (o : Option Nat)
    (bytes : List Nat) (img : Nat × Nat)
    (he : env.embedded = some bytes) (hd : env.decode_mem bytes = some img)
    (hlt : min img.1 img.2 < 200) :
    generate_jpeg_thumbnail env out o = jpeg_full_fallback env out o := by
  unfold generate_jpeg_thumbnail
  simp only [he, hd, if_neg (by omega : ¬200 ≤ min img.1 img.2)]

/-- C5: the embedded fast path is taken exactly when an embedded preview
    extracts, decodes, and its shorter side is at least 200 pixels (200 is
    accepted, 199 falls back to the full decode); and any thumbnail either
    path produces is saved at cache_dir/<logical_photo_id>.jpg with
    dimensions exactly 256 by 256. -/
theorem C5_thumbnail_quality_gate :
    (∀ (env : ThumbEnv) (out : List String) (o : Option Nat) (bytes : List Nat)
        (img : Nat × Nat),
        env.embedded = some bytes → env.decode_mem bytes = some img →
        (200 ≤ min img.1 img.2 →
          generate_jpeg_thumbnail env out o
            = if env.save_emb_ok then some (out, (256, 256))
              else jpeg_full_fallback env out o)
      ∧ (min img.1 img.2 < 200 →
          generate_jpeg_thumbnail env out o = jpeg_full_fallback env out o))
  ∧ (∀ (env : ThumbEnv) (out : List String) (o : Option Nat),
        env.embedded = none →
        generate_jpeg_thumbnail env out o = jpeg_full_fallback env out o)
  ∧ (∀ (env : ThumbEnv) (out : List String) (o : Option Nat) (bytes : List Nat),
        env.embedded = some bytes → env.decode_mem bytes = none →
        generate_jpeg_thumbnail env out o = jpeg_full_fallback env out o)
  ∧ (∀ (env : ThumbEnv) (format : PhotoFormat) (id : Int) (cache : List String)
        (o : Option Nat) (r : List String × (Nat × Nat)),
        generate_thumbnail_inner env format id cache o = some r →
        r.1 = cache ++ [toString id ++ ".jpg"] ∧ r.2 = (256, 256)) := by
  refine ⟨?_, ?_, ?_, ?_⟩
  · intro env out o bytes img he hd
    exact ⟨gen_jpeg_gate_pass env out o bytes img he hd,
      gen_jpeg_gate_fail env out o bytes img he hd⟩
  · intro env out o he
    unfold generate_jpeg_thumbnail
    simp only [he]
  · intro env out o bytes he hd
    unfold generate_jpeg_thumbnail
    simp only [he, hd]
  · intro env format id cache o r h
    unfold generate_thumbnail_inner at h
    rcases format
    · -- jpeg
      have hsome : generate_jpeg_thumbnail env (cache ++ [toString id ++ ".jpg"]) o = some r := h
      have hconc : r = (cache ++ [toString id ++ ".jpg"], (256, 256)) := by
        rcases he : env.embedded with _ | bytes
        · rw [show generate_jpeg_thumbnail env (cache ++ [toString id ++ ".jpg"]) o
              = jpeg_full_fallback env (cache ++ [toString id ++ ".jpg"]) o from by
            unfold generate_jpeg_thumbnail; simp only [he]] at hsome
          rw [jpeg_full_fallback_eq] at hsome
          rcases hcond : (env.full_decode.isSome ∧ env.save_full_ok : Prop) with _
          by_cases hc : env.full_decode.isSome ∧ env.save_full_ok = true
          · rw [if_pos hc] at hsome
            exact (Option.some_inj.mp hsome).symm
          · rw [if_neg hc] at hsome
            simp at hsome
        · rcases hd : env.decode_mem bytes with _ | img
          · rw [show generate_jpeg_thumbnail env (cache ++ [toString id ++ ".jpg"]) o
                = jpeg_full_fallback env (cache ++ [toString id ++ ".jpg"]) o from by
              unfold generate_jpeg_thumbnail; simp only [he, hd]] at hsome
            rw [jpeg_full_fallback_eq] at hsome
            by_cases hc : env.full_decode.isSome ∧ env.save_full_ok = true
            · rw [if_pos hc] at hsome
              exact (Option.some_inj.mp hsome).symm
            · rw [if_neg hc] at hsome
              simp at hsome
          · by_cases hge : 200 ≤ min img.1 img.2
            · rw [gen_jpeg_gate_pass env _ o bytes img he hd hge] at hsome
              rcases hs : env.save_emb_ok
              · rw [hs] at hsome
                simp only [Bool.false_eq_true, if_false] at hsome
                rw [jpeg_full_fallback_eq] at hsome
                by_cases hc : env.full_decode.isSome ∧ env.save_full_ok = true
                · rw [if_pos hc] at hsome
                  exact (Option.some_inj.mp hsome).symm
                · rw [if_neg hc] at hsome
                  simp at hsome
              · rw [hs] at hsome
                simp only [if_true] at hsome
                exact (Option.some_inj.mp hsome).symm
            · rw [gen_jpeg_gate_fail env _ o bytes img he hd (by omega)] at hsome
              rw [jpeg_full_fallback_eq] at hsome
              by_cases hc : env.full_decode.isSome ∧ env.save_full_ok = true
              · rw [if_pos hc] at hsome
                exact (Option.some_inj.mp hsome).symm
              · rw [if_neg hc] at hsome
                simp at hsome
      rw [hconc]
      exact ⟨rfl, rfl⟩
    · -- raw
      unfold generate_raw_thumbnail at h
      rcases he : env.raw_embedded with _ | bytes
      · simp only [he] at h
        exact Option.noConfusion h
      · simp only [he] at h
        rcases hd : env.decode_mem bytes with _ | img
        · simp only [hd] at h
          exact Option.noConfusion h
        · simp only [hd, gen_from_image_eq] at h
          rcases hs : env.save_raw_ok
          · rw [hs] at h
            simp at h
          · rw [hs] at h
            simp at h
            rw [← h]
            exact ⟨rfl, rfl⟩

def env_pass : ThumbEnv :=
  ⟨some [0], fun _ => some (300, 200), none, none, true, true, true⟩

def env_fail : ThumbEnv :=
  ⟨some [0], fun _ => some (299, 199), none, none, true, true, true⟩

theorem C5_thumbnail_quality_gate_witness :
    generate_jpeg_thumbnail env_pass ["cache"] none = some (["cache"], (256, 256))
  ∧ generate_jpeg_thumbnail env_fail ["cache"] none = none
  ∧ ((["cache", "7.jpg"], ((256 : Nat), (256 : Nat))).1
        = ["cache"] ++ [toString (7 : Int) ++ ".jpg"]
      ∧ (["cache", "7.jpg"], ((256 : Nat), (256 : Nat))).2 = (256, 256)) := by
  refine ⟨?_, ?_, ?_⟩
  · have h := ((C5_thumbnail_quality_gate.1 env_pass ["cache"] none [0] (300, 200)
      rfl rfl).1 (by decide))
    exact h.trans (by rfl)
  · have h := ((C5_thumbnail_quality_gate.1 env_fail ["cache"] none [0] (299, 199)
      rfl rfl).2 (by decide))
    exact h.trans (by rfl)
  · exact C5_thumbnail_quality_gate.2.2.2 env_pass PhotoFormat.jpeg 7 ["cache"] none
      (["cache", "7.jpg"], (256, 256)) (by rfl)

/-- The per-file result of exif extraction as consumed by the pipeline
    (pipeline.rs step 3 reads exactly these four fields); capture times are
    in seconds as everywhere in the DB model.  extract_exif is modelled as a
    deterministic oracle over path and declared format: an unchanged file
    yields the same metadata on every run. -/
structure ExifOut where
  capture_time : Option Int
  camera_model : Option String
  lens : Option String
  orientation : Option Nat

/-- The inputs of one pipeline run: the per-folder scanner results
    (scan_directory listing the supported files, with no scan errors) and
    the exif oracle, plus the shared cancel flag.  The flag is an AtomicBool
    polled at every checkpoint; this embedding models it as a constant Bool,
    which is exact for a flag set before the run starts (every poll reads
    true) and for a flag never set (every poll reads false). -/
structure PipelineEnv where
  folders : List (List (PathM × PhotoFormat))
  exif : PathM → PhotoFormat → ExifOut
  cancel : Bool

/-- pipeline.rs step 1: concatenate the per-folder scans. -/
def scan_folders (folders : List (List (PathM × PhotoFormat))) :
    List (PathM × PhotoFormat) :=
  folders.foldl (fun acc f => acc ++ f) []

/-- pipeline.rs step 3 loop: skip files already imported for this project,
    extract exif for the rest and build the ScannedFile records (base name
    is the lowercased stem, dir the parent directory); returns the new files
    and the skipped count. -/
def extract_loop (exif : PathM → PhotoFormat → ExifOut) (existing : List PathM) :
    List (PathM × PhotoFormat) → List ScannedFile × Nat
  | [] => ([], 0)
  | (p, fmt) :: rest =>
    let tail := extract_loop exif existing rest
    if p ∈ existing then (tail.1, tail.2 + 1)
    else
      let e := exif p fmt
      ({ path := p, format := fmt, capture_time := e.capture_time,
         camera_model := e.camera_model, lens := e.lens, orientation := e.orientation,
         base_name := lower_string p.stem, dir := p.dir } :: tail.1, tail.2)

/-- pipeline.rs persist_groups_to_db, one group: look up the stack row id
    (a missing id logs an error and skips the group), take the
    representative (the source unwraps, panicking on an empty group,
    modelled as the Except error), insert it, count it as imported when its
    path is not in existing_paths, insert the logical photo row, link the
    representative to it, and for pairs insert and link the
    non-representative member too. -/
def persist_one (db : DB) (g : LogicalGroup) (stack_idx : Nat)
    (sid_map : List (Option Nat)) (project_id : Nat)
    (existing : Option (List PathM)) (imported errors : Nat) :
    Except Unit (DB × Nat × Nat) :=
  match sid_map.getD stack_idx none with
  | none => Except.ok (db, imported, errors + 1)
  | some sid =>
    match representative g with
    | none => Except.error ()
    | some rep =>
      let ins := insert_photo db rep.path rep.format rep.capture_time rep.orientation
        rep.camera_model rep.lens
      let imported2 :=
        match existing with
        | some ex => if rep.path ∈ ex then imported else imported + 1
        | none => imported
      let lp := insert_logical_photo ins.1 project_id ins.2 sid
      let db3 := set_logical_photo_id lp.1 ins.2 lp.2
      if g.is_pair then
        match (g.raw.filter (fun f => decide (¬f.path = rep.path))).or
            (g.jpeg.filter (fun f => decide (¬f.path = rep.path))) with
        | some other =>
          let ins2 := insert_photo db3 other.path other.format other.capture_time
            other.orientation other.camera_model other.lens
          let db4 := set_logical_photo_id ins2.1 ins2.2 lp.2
          let imported3 :=
            match existing with
            | some ex => if other.path ∈ ex then imported2 else imported2 + 1
            | none => imported2
          Except.ok (db4, imported3, errors)
        | none => Except.ok (db3, imported2, errors)
      else Except.ok (db3, imported2, errors)

/-- pipeline.rs persist_groups_to_db over the whole assignment list,
    threading the imported and error counters. -/
def persist_groups_to_db (db : DB) (assigned : List (LogicalGroup × Nat))
    (sid_map : List (Option Nat)) (project_id : Nat)
    (existing : Option (List PathM)) (imported errors : Nat) :
    Except Unit (DB × Nat × Nat) :=
  match assigned with
  | [] => Except.ok (db, imported, errors)
  | gi :: rest =>
    match persist_one db gi.1 gi.2 sid_map project_id existing imported errors with
    | Except.error e => Except.error e
    | Except.ok r =>
      persist_groups_to_db r.1 rest sid_map project_id existing r.2.1 r.2.2

/-- pipeline.rs run_pipeline_inner.  With the cancel flag constant, a set
    flag is observed at the first checkpoint the run reaches (inside the
    scan loop, or at the pre-extraction checkpoint when there are no
    folders), always before any DB access, so the run returns the input DB
    with default stats marked cancelled; with the flag clear the checkpoints
    all pass.  Step 8 (thumbnails) and the status mutex touch neither the DB
    nor the returned stats and are dropped.  The unseeded stack creation
    loop of step 7 is create_stacks_seeded with mb = 0, whose seeding branch
    is then never taken. -/
def run_pipeline_inner (db : DB) (env : PipelineEnv) (project_id gap : Nat) :
    Except Unit (DB × ImportStatsM) :=
  if env.cancel then
    Except.ok (db, { import_stats_default with cancelled := true })
  else
    let scanned := scan_folders env.folders
    let existing_paths := list_photo_paths_for_project db project_id
    let ext := extract_loop env.exif existing_paths scanned
    let all_files := load_existing_scanned_files db ++ ext.1
    let groups := detect_pairs all_files
    let assigned := assign_stacks_by_burst groups gap
    let max_stack_idx := stacks_generated_of assigned
    let db1 := clear_stacks_and_logical_photos db project_id
    let created := create_stacks_seeded db1 project_id 0 max_stack_idx
    let sid_map : List (Option Nat) :=
      if max_stack_idx = 0 then [none] else created.2.map some
    match persist_groups_to_db created.1 assigned sid_map project_id
        (some existing_paths) 0 0 with
    | Except.error e => Except.error e
    | Except.ok r =>
      Except.ok (r.1,
        { total_files_scanned := scanned.length, imported := r.2.1,
          skipped_existing := ext.2, errors := r.2.2,
          pairs_detected := (groups.filter (fun g => g.is_pair)).length,
          stacks_generated := max_stack_idx, logical_photos := assigned.length,
          cancelled := false })

/-- pipeline.rs run_pipeline: packs the arguments into config and controls
    and delegates to run_pipeline_inner. -/
def run_pipeline (db : DB) (env : PipelineEnv) (project_id gap : Nat) :
    Except Unit (DB × ImportStatsM) :=
  run_pipeline_inner db env project_id gap

/-- C9: with the cancel flag set before run_pipeline starts, every
    checkpoint poll reads true, so the run returns at the first checkpoint
    it reaches: it terminates normally (an ok value, never a panic), writes
    nothing to the database (photos, logical photos and stack rows are the
    input ones, so no Stack or Logical-Photo row is created and
    stacks_generated = 0, no more stacks than input files), and still
    returns the complete default statistics summary with cancelled = true. -/
theorem C9_cancellation_safety (db : DB) (env : PipelineEnv) (project_id gap : Nat)
    (h : env.cancel = true) :
    run_pipeline db env project_id gap
        = Except.ok (db, { import_stats_default with cancelled := true })
    ∧ ∀ out, run_pipeline db env project_id gap = Except.ok out →
        out.1.photos = db.photos ∧ out.1.logical_photos = db.logical_photos
        ∧ out.1.stack_rows = db.stack_rows ∧ out.2.stacks_generated = 0
        ∧ out.2.cancelled = true := by
  have he : run_pipeline db env project_id gap
      = Except.ok (db, { import_stats_default with cancelled := true }) := by
    unfold run_pipeline run_pipeline_inner
    rw [h]
    simp
  refine ⟨he, ?_⟩
  intro out hout
  rw [he] at hout
  have : (db, { import_stats_default with cancelled := true }) = out :=
    Except.ok.inj hout
  rw [← this]
  exact ⟨rfl, rfl, rfl, rfl, rfl⟩

/-- Witness for C9: a concrete cancelled run over a one-folder scan and a
    nonempty database returns it untouched with cancelled stats. -/
theorem C9_cancellation_safety_witness :
    run_pipeline restack_demo_db
        { folders := [[({ dir := "d", stem := "a", ext := "jpg" }, PhotoFormat.jpeg)]],
          exif := fun _ _ => { capture_time := none, camera_model := none,
                               lens := none, orientation := none },
          cancel := true } 1 3
      = Except.ok (restack_demo_db, { import_stats_default with cancelled := true }) :=
  (C9_cancellation_safety restack_demo_db
    { folders := [[({ dir := "d", stem := "a", ext := "jpg" }, PhotoFormat.jpeg)]],
      exif := fun _ _ => { capture_time := none, camera_model := none,
                           lens := none, orientation := none },
      cancel := true } 1 3 rfl).1

/-- The ScannedFile a photos row reloads as (repository.rs
    load_existing_scanned_files recomputes base name and dir from the
    path). -/
def photo_file (p : PhotoRow) : ScannedFile :=
  { path := p.path, format := p.format, capture_time := p.capture_time,
    camera_model := p.camera_model, lens := p.lens, orientation := p.orientation,
    base_name := lower_string p.path.stem, dir := p.path.dir }

theorem load_existing_eq_map (db : DB) :
    load_existing_scanned_files db = db.photos.map photo_file := rfl

/-- Recompute the derived base name and dir of a file from its path, the
    way the reload path does. -/
def canon_file (f : ScannedFile) : ScannedFile :=
  { f with base_name := lower_string f.path.stem, dir := f.path.dir }

theorem flatMap_congr_mem (l : List (String × String))
    (f g : String × String → List ScannedFile)
    (h : ∀ a ∈ l, f a = g a) : l.flatMap f = l.flatMap g := by
  induction l with
  | nil => rfl
  | cons a rest ih =>
    simp only [List.flatMap_cons]
    rw [h a (by simp), ih (fun a ha => h a (by simp [ha]))]

theorem flatMap_perm_mem {α β : Type} (l : List α) (f g : α → List β)
    (h : ∀ a ∈ l, (f a).Perm (g a)) : (l.flatMap f).Perm (l.flatMap g) := by
  induction l with
  | nil => exact List.Perm.refl _
  | cons a rest ih =>
    simp only [List.flatMap_cons]
    exact List.Perm.append (h a (by simp)) (ih (fun a ha => h a (by simp [ha])))

theorem bucket_filter_ne (files : List ScannedFile) (k k2 : String × String)
    (hne : ¬k2 = k) :
    bucket (files.filter (fun f => decide (¬group_key f = k))) k2
      = bucket files k2 := by
  unfold bucket
  rw [List.filter_filter]
  apply List.filter_congr
  intro f _
  by_cases h : group_key f = k2
  · have hne2 : ¬group_key f = k := fun he => hne (h ▸ he)
    simp [h, hne2, hne]
  · simp [h]

/-- Grouping a list by a Nodup key cover partitions it: the buckets,
    concatenated over the keys, are a permutation of the input.  This is the
    determinization of the HashMap grouping in pairs.rs. -/
theorem flatMap_bucket_perm :
    ∀ (ks : List (String × String)) (files : List ScannedFile), ks.Nodup →
      (∀ f ∈ files, group_key f ∈ ks) →
      (ks.flatMap (fun k => bucket files k)).Perm files := by
  intro ks
  induction ks with
  | nil =>
    intro files _ hcov
    have hnil : files = [] := by
      rcases files with _ | ⟨f, rest⟩
      · rfl
      · exact absurd (hcov f (by simp)) (by simp)
    rw [hnil]
    rfl
  | cons k ks ih =>
    intro files hnd hcov
    have hnd2 := List.nodup_cons.mp hnd
    have hrest : ∀ k2 ∈ ks, (fun k2 => bucket files k2) k2
        = (fun k2 => bucket (files.filter (fun f => decide (¬group_key f = k))) k2) k2 := by
      intro k2 hk2
      exact (bucket_filter_ne files k k2 (fun he => hnd2.1 (he ▸ hk2))).symm
    simp only [List.flatMap_cons]
    rw [flatMap_congr_mem ks _ _ hrest]
    have hperm := ih (files.filter (fun f => decide (¬group_key f = k))) hnd2.2
      (by
        intro f hf
        have hmem := List.mem_of_mem_filter hf
        have hne := (List.mem_filter.mp hf).2
        simp only [decide_eq_true_eq] at hne
        rcases List.mem_cons.mp (hcov f hmem) with he | he
        · exact absurd he hne
        · exact he)
    have hsplit := List.filter_append_perm (fun f => decide (group_key f = k)) files
    have hcompl : files.filter (fun f => decide (¬group_key f = k))
        = files.filter (fun f => !decide (group_key f = k)) := by
      apply List.filter_congr
      intro f _
      by_cases h : group_key f = k <;> simp [h]
    calc (bucket files k
          ++ ks.flatMap (fun k2 => bucket (files.filter (fun f => decide (¬group_key f = k))) k2))
        ~ bucket files k ++ files.filter (fun f => decide (¬group_key f = k)) :=
          List.Perm.append_left _ hperm
      _ = files.filter (fun f => decide (group_key f = k))
            ++ files.filter (fun f => !decide (group_key f = k)) := by
          rw [hcompl]; rfl
      _ ~ files := hsplit

/-- The per-key buckets of detect_pairs cover the input exactly once. -/
theorem detect_buckets_perm (files : List ScannedFile) :
    (((files.map group_key).dedup).flatMap (fun k => bucket files k)).Perm files :=
  flatMap_bucket_perm _ files (List.nodup_dedup _)
    (fun f hf => List.mem_dedup.mpr (List.mem_map_of_mem _ hf))

theorem flatMap_single_members (b : List ScannedFile) :
    (b.map single_group).flatMap group_members = b := by
  induction b with
  | nil => rfl
  | cons f rest ihb =>
    simp only [List.map_cons, List.flatMap_cons, single_group_members]
    simp [ihb]

/-- The members of one bucket's resolved groups are the bucket itself, as a
    multiset. -/
theorem resolve_group_flat_members (b : List ScannedFile) :
    ((resolve_group b).flatMap group_members).Perm b := by
  by_cases h : b.length = 2
      ∧ (b.filter (fun f => decide (f.format = PhotoFormat.jpeg))).length = 1
  · obtain ⟨j, r, hj, hr, hre⟩ := resolve_group_mixed b h.1 h.2
    rw [hre]
    have hmem : ([{ jpeg := some j, raw := some r, is_pair := true }] :
        List LogicalGroup).flatMap group_members = [j, r] := rfl
    rw [hmem]
    have hcompl : b.filter (fun f => decide (¬f.format = PhotoFormat.jpeg))
        = b.filter (fun f => !decide (f.format = PhotoFormat.jpeg)) := by
      apply List.filter_congr
      intro f _
      by_cases hf : f.format = PhotoFormat.jpeg <;> simp [hf]
    have hsplit := List.filter_append_perm
      (fun f => decide (f.format = PhotoFormat.jpeg)) b
    rw [← hcompl, hj, hr] at hsplit
    exact hsplit
  · rw [resolve_group_unmixed b h, flatMap_single_members]

/-- The members of all detected groups are exactly the input files, as a
    multiset: every file lands in exactly one logical group. -/
theorem detect_pairs_members_perm (files : List ScannedFile) :
    ((detect_pairs files).flatMap group_members).Perm files := by
  unfold detect_pairs
  rw [List.flatMap_assoc]
  exact List.Perm.trans
    (flatMap_perm_mem _ _ _ (fun k _ => resolve_group_flat_members (bucket files k)))
    (detect_buckets_perm files)

/-- Shape of every group detect_pairs returns: the representative exists,
    and a non-pair group has all its members on one side (persist inserts
    only the representative for non-pairs, which then covers the whole
    group). -/
theorem detect_pairs_shape (files : List ScannedFile) :
    ∀ g ∈ detect_pairs files, (representative g).isSome
      ∧ (g.is_pair = false → g.jpeg = none ∨ g.raw = none) := by
  intro g hg
  obtain ⟨k, _, hgk⟩ := List.mem_flatMap.mp hg
  refine ⟨resolve_group_rep_some _ g hgk, ?_⟩
  intro hnp
  by_cases h : (bucket files k).length = 2
      ∧ ((bucket files k).filter (fun f => decide (f.format = PhotoFormat.jpeg))).length = 1
  · obtain ⟨j, r, _, _, hre⟩ := resolve_group_mixed _ h.1 h.2
    rw [hre] at hgk
    simp at hgk
    subst hgk
    simp at hnp
  · rw [resolve_group_unmixed _ h] at hgk
    obtain ⟨f0, _, hfe⟩ := List.mem_map.mp hgk
    subst hfe
    unfold single_group
    by_cases hf : f0.format = PhotoFormat.jpeg <;> simp [hf]

theorem perm_flatMap {α β : Type} (l l2 : List α) (f : α → List β) (h : l.Perm l2) :
    (l.flatMap f).Perm (l2.flatMap f) := by
  induction h with
  | nil => exact List.Perm.refl _
  | cons a _ ih =>
    simp only [List.flatMap_cons]
    exact ih.append_left _
  | swap a b l =>
    simp only [List.flatMap_cons]
    rw [← List.append_assoc, ← List.append_assoc]
    exact List.Perm.append_right _ List.perm_append_comm
  | trans _ _ ih1 ih2 => exact ih1.trans ih2

/-- resolve_group is invariant, as a multiset, under permuting its bucket. -/
theorem resolve_group_perm (b b2 : List ScannedFile) (hp : b.Perm b2) :
    (resolve_group b).Perm (resolve_group b2) := by
  by_cases h : b.length = 2
      ∧ (b.filter (fun f => decide (f.format = PhotoFormat.jpeg))).length = 1
  · have h2 : b2.length = 2
        ∧ (b2.filter (fun f => decide (f.format = PhotoFormat.jpeg))).length = 1 := by
      constructor
      · rw [← hp.length_eq]
        exact h.1
      · rw [← (hp.filter _).length_eq]
        exact h.2
    obtain ⟨j, r, hj, hr, hre⟩ := resolve_group_mixed b h.1 h.2
    obtain ⟨j2, r2, hj2, hr2, hre2⟩ := resolve_group_mixed b2 h2.1 h2.2
    have hjj : j = j2 := by
      have hpf := hp.filter (fun f => decide (f.format = PhotoFormat.jpeg))
      rw [hj, hj2] at hpf
      simpa using hpf
    have hrr : r = r2 := by
      have hpf := hp.filter (fun f => decide (¬f.format = PhotoFormat.jpeg))
      rw [hr, hr2] at hpf
      simpa using hpf
    rw [hre, hre2, hjj, hrr]
  · have h2 : ¬(b2.length = 2
        ∧ (b2.filter (fun f => decide (f.format = PhotoFormat.jpeg))).length = 1) := by
      intro hc
      exact h ⟨by rw [hp.length_eq]; exact hc.1, by rw [(hp.filter _).length_eq]; exact hc.2⟩
    rw [resolve_group_unmixed b h, resolve_group_unmixed b2 h2]
    exact hp.map _

/-- detect_pairs is invariant, as a multiset of groups, under permuting its
    input (the source iterates a HashMap in arbitrary order, so only this
    multiset is determined). -/
theorem detect_pairs_perm (files files2 : List ScannedFile) (hp : files.Perm files2) :
    (detect_pairs files).Perm (detect_pairs files2) := by
  unfold detect_pairs
  have hk : ((files.map group_key).dedup).Perm ((files2.map group_key).dedup) :=
    (hp.map group_key).dedup
  have step1 : (((files.map group_key).dedup).flatMap
        (fun k => resolve_group (bucket files k))).Perm
      (((files.map group_key).dedup).flatMap
        (fun k => resolve_group (bucket files2 k))) :=
    flatMap_perm_mem _ _ _ (fun k _ => resolve_group_perm _ _ (hp.filter _))
  have step2 : (((files.map group_key).dedup).flatMap
        (fun k => resolve_group (bucket files2 k))).Perm
      (((files2.map group_key).dedup).flatMap
        (fun k => resolve_group (bucket files2 k))) :=
    perm_flatMap _ _ _ hk
  exact step1.trans step2

/-- The stack walk's assigned indices and final index depend only on the
    capture times of its input. -/
theorem stack_walk_snd_of_times (gap : Nat) :
    ∀ (l l2 : List LogicalGroup), l.map capture_time = l2.map capture_time →
      ∀ (idx : Nat) (last : Option Int),
        (stack_walk gap l idx last).1.map Prod.snd
            = (stack_walk gap l2 idx last).1.map Prod.snd
          ∧ (stack_walk gap l idx last).2 = (stack_walk gap l2 idx last).2 := by
  intro l
  induction l with
  | nil =>
    intro l2 h idx last
    rcases l2 with _ | ⟨g2, rest2⟩
    · exact ⟨rfl, rfl⟩
    · simp at h
  | cons g rest ih =>
    intro l2 h idx last
    rcases l2 with _ | ⟨g2, rest2⟩
    · simp at h
    · simp only [List.map_cons, List.cons.injEq] at h
      obtain ⟨hg, hrest⟩ := h
      unfold stack_walk
      rcases hct : capture_time g with _ | t
      · rw [hct] at hg
        rw [← hg]
        have htail := ih rest2 hrest idx last
        simp [htail.1, htail.2]
      · rw [hct] at hg
        rw [← hg]
        have htail := ih rest2 hrest (step_idx gap idx last t) (some t)
        simp [htail.1, htail.2]

/-- Two permuted inputs yield sorted timed lists with identical capture-time
    sequences: the sort key order is antisymmetric on the keys, so sorted
    permutations agree keywise. -/
theorem sorted_timed_times_eq (gs gs2 : List LogicalGroup) (hp : gs.Perm gs2) :
    (sorted_timed gs).map capture_time = (sorted_timed gs2).map capture_time := by
  haveI : IsAntisymm (Option Int) (fun a b => time_le a b = true) := by
    constructor
    intro a b hab hba
    unfold time_le at hab hba
    rcases a with _ | x <;> rcases b with _ | y <;> simp_all
    omega
  have hperm : ((sorted_timed gs).map capture_time).Perm
      ((sorted_timed gs2).map capture_time) := by
    apply List.Perm.map
    calc sorted_timed gs
        ~ gs.filter (fun g => (capture_time g).isSome) := List.perm_insertionSort _ _
      _ ~ gs2.filter (fun g => (capture_time g).isSome) := hp.filter _
      _ ~ sorted_timed gs2 := (List.perm_insertionSort _ _).symm
  have hs1 : List.Sorted (fun a b : Option Int => time_le a b = true)
      ((sorted_timed gs).map capture_time) :=
    List.Pairwise.map _ (fun _ _ hab => hab) (sorted_timed_sorted gs)
  have hs2 : List.Sorted (fun a b : Option Int => time_le a b = true)
      ((sorted_timed gs2).map capture_time) :=
    List.Pairwise.map _ (fun _ _ hab => hab) (sorted_timed_sorted gs2)
  exact List.eq_of_perm_of_sorted hperm hs1 hs2

/-- The two statistics the pipeline derives from the assignment — the stack
    count and the logical photo count — are invariant under permuting the
    logical groups. -/
theorem assign_perm_invariants (gs gs2 : List LogicalGroup) (gap : Nat)
    (hp : gs.Perm gs2) :
    stacks_generated_of (assign_stacks_by_burst gs gap)
        = stacks_generated_of (assign_stacks_by_burst gs2 gap)
      ∧ (assign_stacks_by_burst gs gap).length
        = (assign_stacks_by_burst gs2 gap).length := by
  have htimes := sorted_timed_times_eq gs gs2 hp
  have hwalk := stack_walk_snd_of_times gap (sorted_timed gs) (sorted_timed gs2)
    htimes 0 none
  have hulen : (untimed_of gs).length = (untimed_of gs2).length :=
    (hp.filter _).length_eq
  have hslen : (sorted_timed gs).length = (sorted_timed gs2).length := by
    have := congrArg List.length htimes
    simpa using this
  constructor
  · unfold stacks_generated_of
    rw [assign_stacks_eq, assign_stacks_eq, List.map_append, List.map_append,
      hwalk.1, hwalk.2, solo_stacks_snd, solo_stacks_snd, hulen]
  · rw [assign_stacks_eq, assign_stacks_eq]
    simp only [List.length_append]
    have l1 : ∀ gs0 : List LogicalGroup,
        (stack_walk gap (sorted_timed gs0) 0 none).1.length = (sorted_timed gs0).length := by
      intro gs0
      have := congrArg List.length (stack_walk_fst gap (sorted_timed gs0) 0 none)
      simpa using this
    have l2 : ∀ (l : List LogicalGroup) (idx : Nat),
        (solo_stacks l idx).length = l.length := by
      intro l idx
      have := congrArg List.length (solo_stacks_fst l idx)
      simpa using this
    rw [l1, l1, l2, l2, hslen, hulen]

/-- The multiset of groups underlying an assignment is the input. -/
theorem assign_fst_perm (gs : List LogicalGroup) (gap : Nat) :
    ((assign_stacks_by_burst gs gap).map Prod.fst).Perm gs := by
  rw [assign_stacks_eq, List.map_append, stack_walk_fst, solo_stacks_fst]
  calc sorted_timed gs ++ untimed_of gs
      ~ gs.filter (fun g => (capture_time g).isSome) ++ untimed_of gs :=
        List.Perm.append_right _ (List.perm_insertionSort _ _)
    _ ~ gs := List.filter_append_perm _ gs

/-- Every assigned index is below the derived stack count. -/
theorem assigned_idx_lt (a : List (LogicalGroup × Nat)) (gi : LogicalGroup × Nat)
    (h : gi ∈ a) : gi.2 < stacks_generated_of a := by
  unfold stacks_generated_of
  have hmem : gi.2 ∈ a.map Prod.snd := List.mem_map_of_mem _ h
  rcases hmax : (a.map Prod.snd).max? with _ | m
  · rw [List.max?_eq_none_iff] at hmax
    rw [hmax] at hmem
    simp at hmem
  · obtain ⟨-, hub⟩ := (List.max?_eq_some_iff').mp hmax
    have := hub gi.2 hmem
    simp
    omega

/-- A zero stack count means an empty assignment. -/
theorem stacks_generated_zero (a : List (LogicalGroup × Nat))
    (h : stacks_generated_of a = 0) : a = [] := by
  unfold stacks_generated_of at h
  rcases hmax : (a.map Prod.snd).max? with _ | m
  · rw [List.max?_eq_none_iff] at hmax
    rcases a with _ | ⟨x, rest⟩
    · rfl
    · simp at hmax
  · rw [hmax] at h
    simp at h

/-- Inserting a photo whose path is new appends one row with the next rowid
    and returns that id. -/
theorem insert_photo_fresh (db : DB) (f : ScannedFile)
    (h : ∀ p ∈ db.photos, ¬p.path = f.path) :
    insert_photo db f.path f.format f.capture_time f.orientation f.camera_model f.lens
      = ({ db with photos := db.photos ++
            [{ id := max_nat (db.photos.map (fun p => p.id)) + 1, path := f.path,
               format := f.format, capture_time := f.capture_time,
               orientation := f.orientation, camera_model := f.camera_model,
               lens := f.lens, logical_photo_id := none }] },
         max_nat (db.photos.map (fun p => p.id)) + 1) := by
  have hany : db.photos.any (fun p => decide (p.path = f.path)) = false := by
    apply List.any_eq_false.mpr
    intro p hp
    simpa using h p hp
  have hnone : db.photos.find? (fun p => decide (p.path = f.path)) = none :=
    List.find?_eq_none.mpr (fun p hp => by simpa using h p hp)
  unfold insert_photo
  rw [hany]
  simp only [Bool.false_eq_true, if_false, List.find?_append, hnone, Option.none_or]
  simp [List.find?_cons]

/-- Updating the logical photo link of an id no row has is a no-op on a row
    list. -/
theorem map_set_untouched (l : List PhotoRow) (i lp : Nat)
    (h : ∀ p ∈ l, ¬p.id = i) :
    l.map (fun p => if p.id = i then { p with logical_photo_id := some lp } else p)
      = l := by
  have := List.map_congr_left (l := l)
    (f := fun p => if p.id = i then { p with logical_photo_id := some lp } else p)
    (g := id) (fun p hp => by simp [h p hp])
  simpa using this

/-- All existing rowids are at most the running maximum, so the next rowid
    is fresh. -/
theorem id_lt_next (l : List PhotoRow) (p : PhotoRow) (hp : p ∈ l) :
    p.id < max_nat (l.map (fun q => q.id)) + 1 :=
  Nat.lt_succ_of_le (le_max_nat _ _ (List.mem_map_of_mem _ hp))

/-- Linking a freshly appended row: rows with smaller ids are untouched and
    the new row gets the link. -/
theorem set_lp_id_append (db : DB) (l : List PhotoRow) (row : PhotoRow) (lp : Nat)
    (hdb : db.photos = l ++ [row]) (hfresh : ∀ p ∈ l, ¬p.id = row.id) :
    set_logical_photo_id db row.id lp
      = { db with photos := l ++ [{ row with logical_photo_id := some lp }] } := by
  unfold set_logical_photo_id
  rw [hdb, List.map_append, map_set_untouched l row.id lp hfresh]
  simp

/-- persist_groups_to_db, one group with a single stored member: the member
    row is appended with the next rowid, one logical photo row for this
    project is appended, and the member row is linked to it. -/
theorem persist_one_single (db : DB) (g : LogicalGroup) (idx : Nat)
    (sid_map : List (Option Nat)) (pid : Nat) (ex : Option (List PathM)) (imp err : Nat)
    (sid : Nat) (hsid : sid_map.getD idx none = some sid)
    (f : ScannedFile) (hrepf : representative g = some f)
    (hmem : group_members g = [f])
    (hother : g.is_pair = true →
      (g.raw.filter (fun x => decide (¬x.path = f.path))).or
        (g.jpeg.filter (fun x => decide (¬x.path = f.path))) = none)
    (hfreshp : ∀ p ∈ db.photos, ∀ x ∈ group_members g, ¬p.path = x.path) :
    persist_one db g idx sid_map pid ex imp err
      = Except.ok
          ({ photos := db.photos ++
              [{ id := max_nat (db.photos.map (fun p => p.id)) + 1, path := f.path,
                 format := f.format, capture_time := f.capture_time,
                 orientation := f.orientation, camera_model := f.camera_model,
                 lens := f.lens,
                 logical_photo_id := some (max_nat (db.logical_photos.map (fun l => l.id)) + 1) }],
             logical_photos := db.logical_photos ++
              [{ id := max_nat (db.logical_photos.map (fun l => l.id)) + 1,
                 project_id := pid,
                 representative_photo_id := max_nat (db.photos.map (fun p => p.id)) + 1,
                 stack_id := some sid }],
             stack_rows := db.stack_rows },
           (match ex with
            | some exl => if f.path ∈ exl then imp else imp + 1
            | none => imp),
           err) := by
  have hfr : ∀ p ∈ db.photos, ¬p.path = f.path :=
    fun p hp => hfreshp p hp f (by rw [hmem]; simp)
  have hins := insert_photo_fresh db f hfr
  have hset := set_lp_id_append
    { photos := db.photos ++
        [{ id := max_nat (db.photos.map (fun p => p.id)) + 1, path := f.path,
           format := f.format, capture_time := f.capture_time,
           orientation := f.orientation, camera_model := f.camera_model,
           lens := f.lens, logical_photo_id := none }],
      logical_photos := db.logical_photos ++
        [{ id := max_nat (db.logical_photos.map (fun l => l.id)) + 1,
           project_id := pid,
           representative_photo_id := max_nat (db.photos.map (fun p => p.id)) + 1,
           stack_id := some sid }],
      stack_rows := db.stack_rows }
    db.photos
    { id := max_nat (db.photos.map (fun p => p.id)) + 1, path := f.path,
      format := f.format, capture_time := f.capture_time,
      orientation := f.orientation, camera_model := f.camera_model,
      lens := f.lens, logical_photo_id := none }
    (max_nat (db.logical_photos.map (fun l => l.id)) + 1)
    rfl
    (fun p hp => Nat.ne_of_lt (id_lt_next db.photos p hp))
  simp only [persist_one, hsid, hrepf, hins, insert_logical_photo]
  rcases hip : g.is_pair
  · simp only [hip, Bool.false_eq_true, if_false]
    rw [hset]
  · simp only [hip, if_true, hother hip]
    rw [hset]

/-- A photos row as insert_photo builds it. -/
def mk_photo_row (n : Nat) (f : ScannedFile) (link : Option Nat) : PhotoRow :=
  { id := n, path := f.path, format := f.format, capture_time := f.capture_time,
    orientation := f.orientation, camera_model := f.camera_model, lens := f.lens,
    logical_photo_id := link }

/-- persist_groups_to_db, one pair group: both members are appended with
    consecutive fresh rowids, one logical photo row for the project is
    appended, and both member rows are linked to it. -/
theorem persist_one_pair (db : DB) (j r : ScannedFile) (idx : Nat)
    (sid_map : List (Option Nat)) (pid : Nat) (ex : Option (List PathM)) (imp err sid : Nat)
    (hsid : sid_map.getD idx none = some sid)
    (hne : ¬r.path = j.path)
    (hfj : ∀ p ∈ db.photos, ¬p.path = j.path)
    (hfr : ∀ p ∈ db.photos, ¬p.path = r.path) :
    ∃ imp2,
      persist_one db { jpeg := some j, raw := some r, is_pair := true } idx sid_map
          pid ex imp err
        = Except.ok
            ({ photos := db.photos ++
                [mk_photo_row (max_nat (db.photos.map (fun p => p.id)) + 1) j
                   (some (max_nat (db.logical_photos.map (fun l => l.id)) + 1)),
                 mk_photo_row
                   (max_nat ((db.photos ++
                      [mk_photo_row (max_nat (db.photos.map (fun p => p.id)) + 1) j
                         (some (max_nat (db.logical_photos.map (fun l => l.id)) + 1))]).map
                        (fun p => p.id)) + 1) r
                   (some (max_nat (db.logical_photos.map (fun l => l.id)) + 1))],
               logical_photos := db.logical_photos ++
                [{ id := max_nat (db.logical_photos.map (fun l => l.id)) + 1,
                   project_id := pid,
                   representative_photo_id := max_nat (db.photos.map (fun p => p.id)) + 1,
                   stack_id := some sid }],
               stack_rows := db.stack_rows },
             imp2, err) := by
  refine ⟨(match ex with
    | some exl => if r.path ∈ exl then (if j.path ∈ exl then imp else imp + 1)
        else (if j.path ∈ exl then imp else imp + 1) + 1
    | none => imp), ?_⟩
  have hrepf : representative { jpeg := some j, raw := some r, is_pair := true }
      = some j := rfl
  have hins1 := insert_photo_fresh db j hfj
  have hset1 := set_lp_id_append
    { photos := db.photos ++
        [{ id := max_nat (db.photos.map (fun p => p.id)) + 1, path := j.path,
           format := j.format, capture_time := j.capture_time,
           orientation := j.orientation, camera_model := j.camera_model,
           lens := j.lens, logical_photo_id := none }],
      logical_photos := db.logical_photos ++
        [{ id := max_nat (db.logical_photos.map (fun l => l.id)) + 1,
           project_id := pid,
           representative_photo_id := max_nat (db.photos.map (fun p => p.id)) + 1,
           stack_id := some sid }],
      stack_rows := db.stack_rows }
    db.photos
    { id := max_nat (db.photos.map (fun p => p.id)) + 1, path := j.path,
      format := j.format, capture_time := j.capture_time,
      orientation := j.orientation, camera_model := j.camera_model,
      lens := j.lens, logical_photo_id := none }
    (max_nat (db.logical_photos.map (fun l => l.id)) + 1)
    rfl
    (fun p hp => Nat.ne_of_lt (id_lt_next db.photos p hp))
  have hoth : ((Option.filter (fun x => decide (¬x.path = j.path)) (some r)).or
      (Option.filter (fun x => decide (¬x.path = j.path)) (some j))) = some r := by
    simp [Option.filter, hne]
  simp only [persist_one, hsid, hrepf, hins1, insert_logical_photo]
  rw [hset1]
  simp only [if_true, hoth]
  have hfj2 : ∀ p ∈ (db.photos ++
      [mk_photo_row (max_nat (db.photos.map (fun q => q.id)) + 1) j
         (some (max_nat (db.logical_photos.map (fun l => l.id)) + 1))]), ¬p.path = r.path := by
    intro p hp
    rcases List.mem_append.mp hp with hp | hp
    · exact hfr p hp
    · simp at hp
      subst hp
      simp only [mk_photo_row]
      exact fun he => hne he.symm
  have hins2 := insert_photo_fresh
    ({ photos := db.photos ++
         [mk_photo_row (max_nat (db.photos.map (fun q => q.id)) + 1) j
            (some (max_nat (db.logical_photos.map (fun l => l.id)) + 1))],
       logical_photos := db.logical_photos ++
         [{ id := max_nat (db.logical_photos.map (fun l => l.id)) + 1,
            project_id := pid,
            representative_photo_id := max_nat (db.photos.map (fun p => p.id)) + 1,
            stack_id := some sid }],
       stack_rows := db.stack_rows } : DB)
    r hfj2
  simp only [mk_photo_row] at hins2
  simp only [hins2]
  have hset2 := set_lp_id_append
    ({ photos := (db.photos ++
         [{ id := max_nat (db.photos.map (fun p => p.id)) + 1, path := j.path,
            format := j.format, capture_time := j.capture_time,
            orientation := j.orientation, camera_model := j.camera_model,
            lens := j.lens,
            logical_photo_id := some (max_nat (db.logical_photos.map (fun l => l.id)) + 1) }]) ++
         [{ id := max_nat ((db.photos ++
               ([{ id := max_nat (db.photos.map (fun p => p.id)) + 1, path := j.path,
                   format := j.format, capture_time := j.capture_time,
                   orientation := j.orientation, camera_model := j.camera_model,
                   lens := j.lens,
                   logical_photo_id := some (max_nat (db.logical_photos.map
                     (fun l => l.id)) + 1) }] : List PhotoRow)).map (fun p => p.id)) + 1,
            path := r.path, format := r.format, capture_time := r.capture_time,
            orientation := r.orientation, camera_model := r.camera_model,
            lens := r.lens, logical_photo_id := none }],
       logical_photos := db.logical_photos ++
         [{ id := max_nat (db.logical_photos.map (fun l => l.id)) + 1,
            project_id := pid,
            representative_photo_id := max_nat (db.photos.map (fun p => p.id)) + 1,
            stack_id := some sid }],
       stack_rows := db.stack_rows } : DB)
    (db.photos ++
        [{ id := max_nat (db.photos.map (fun p => p.id)) + 1, path := j.path,
           format := j.format, capture_time := j.capture_time,
           orientation := j.orientation, camera_model := j.camera_model,
           lens := j.lens,
           logical_photo_id := some (max_nat (db.logical_photos.map (fun l => l.id)) + 1) }])
    { id := max_nat ((db.photos ++
          ([{ id := max_nat (db.photos.map (fun p => p.id)) + 1, path := j.path,
              format := j.format, capture_time := j.capture_time,
              orientation := j.orientation, camera_model := j.camera_model,
              lens := j.lens,
              logical_photo_id := some (max_nat (db.logical_photos.map
                (fun l => l.id)) + 1) }] : List PhotoRow)).map (fun p => p.id)) + 1,
      path := r.path, format := r.format, capture_time := r.capture_time,
      orientation := r.orientation, camera_model := r.camera_model,
      lens := r.lens, logical_photo_id := none }
    (max_nat (db.logical_photos.map (fun l => l.id)) + 1)
    rfl
    (fun p hp => Nat.ne_of_lt (id_lt_next _ p hp))
  rw [hset2]
  simp only [mk_photo_row]
  rcases ex with _ | exl <;> simp

/-- The database state after persisting one single-member group. -/
def single_insert_db (db : DB) (f : ScannedFile) (pid sid : Nat) : DB :=
  { photos := db.photos ++
      [{ id := max_nat (db.photos.map (fun p => p.id)) + 1, path := f.path,
         format := f.format, capture_time := f.capture_time,
         orientation := f.orientation, camera_model := f.camera_model,
         lens := f.lens,
         logical_photo_id := some (max_nat (db.logical_photos.map (fun l => l.id)) + 1) }],
    logical_photos := db.logical_photos ++
      [{ id := max_nat (db.logical_photos.map (fun l => l.id)) + 1, project_id := pid,
         representative_photo_id := max_nat (db.photos.map (fun p => p.id)) + 1,
         stack_id := some sid }],
    stack_rows := db.stack_rows }

/-- The database state after persisting one pair group. -/
def pair_insert_db (db : DB) (j r : ScannedFile) (pid sid : Nat) : DB :=
  { photos := db.photos ++
      [mk_photo_row (max_nat (db.photos.map (fun p => p.id)) + 1) j
         (some (max_nat (db.logical_photos.map (fun l => l.id)) + 1)),
       mk_photo_row
         (max_nat ((db.photos ++
            [mk_photo_row (max_nat (db.photos.map (fun p => p.id)) + 1) j
               (some (max_nat (db.logical_photos.map (fun l => l.id)) + 1))]).map
              (fun p => p.id)) + 1) r
         (some (max_nat (db.logical_photos.map (fun l => l.id)) + 1))],
    logical_photos := db.logical_photos ++
      [{ id := max_nat (db.logical_photos.map (fun l => l.id)) + 1, project_id := pid,
         representative_photo_id := max_nat (db.photos.map (fun p => p.id)) + 1,
         stack_id := some sid }],
    stack_rows := db.stack_rows }

theorem single_insert_post (db : DB) (f : ScannedFile) (pid sid : Nat)
    (hids : (db.photos.map (fun p => p.id)).Nodup) :
    (single_insert_db db f pid sid).photos.map photo_file
        = db.photos.map photo_file ++ [canon_file f]
    ∧ (∀ p ∈ db.photos, p ∈ (single_insert_db db f pid sid).photos)
    ∧ (∀ p ∈ (single_insert_db db f pid sid).photos, p ∈ db.photos
        ∨ p.logical_photo_id = some (max_nat (db.logical_photos.map (fun l => l.id)) + 1))
    ∧ ((single_insert_db db f pid sid).photos.map (fun p => p.id)).Nodup := by
  refine ⟨?_, ?_, ?_, ?_⟩
  · simp only [single_insert_db, List.map_append]
    simp [photo_file, canon_file]
  · intro p hp
    exact List.mem_append_left _ hp
  · intro p hp
    rcases List.mem_append.mp hp with hp | hp
    · exact Or.inl hp
    · right
      simp at hp
      subst hp
      rfl
  · simp only [single_insert_db, List.map_append]
    refine List.Nodup.append hids (by simp) ?_
    intro a ha hb
    simp at hb
    obtain ⟨p, hp, hpe⟩ := List.mem_map.mp ha
    have := id_lt_next db.photos p hp
    omega

theorem pair_insert_post (db : DB) (j r : ScannedFile) (pid sid : Nat)
    (hids : (db.photos.map (fun p => p.id)).Nodup) :
    (pair_insert_db db j r pid sid).photos.map photo_file
        = db.photos.map photo_file ++ [canon_file j, canon_file r]
    ∧ (∀ p ∈ db.photos, p ∈ (pair_insert_db db j r pid sid).photos)
    ∧ (∀ p ∈ (pair_insert_db db j r pid sid).photos, p ∈ db.photos
        ∨ p.logical_photo_id = some (max_nat (db.logical_photos.map (fun l => l.id)) + 1))
    ∧ ((pair_insert_db db j r pid sid).photos.map (fun p => p.id)).Nodup := by
  refine ⟨?_, ?_, ?_, ?_⟩
  · simp only [pair_insert_db, List.map_append]
    simp [photo_file, canon_file, mk_photo_row]
  · intro p hp
    exact List.mem_append_left _ hp
  · intro p hp
    rcases List.mem_append.mp hp with hp | hp
    · exact Or.inl hp
    · right
      simp at hp
      rcases hp with hp | hp <;> subst hp <;> rfl
  · simp only [pair_insert_db, List.map_append]
    refine List.Nodup.append hids ?_ ?_
    · simp only [List.map_cons, List.map_nil, List.nodup_cons, List.not_mem_nil,
        not_false_iff, List.nodup_nil, and_true, List.mem_singleton]
      simp only [mk_photo_row]
      have hlt := id_lt_next (db.photos ++
        [mk_photo_row (max_nat (db.photos.map (fun p => p.id)) + 1) j
           (some (max_nat (db.logical_photos.map (fun l => l.id)) + 1))])
        (mk_photo_row (max_nat (db.photos.map (fun p => p.id)) + 1) j
           (some (max_nat (db.logical_photos.map (fun l => l.id)) + 1)))
        (by simp)
      simp only [mk_photo_row, List.map_append, List.map_cons, List.map_nil] at hlt
      omega
    · intro a ha hb
      obtain ⟨p, hp, hpe⟩ := List.mem_map.mp ha
      have h1 := id_lt_next db.photos p hp
      have h2 := id_lt_next (db.photos ++
        [mk_photo_row (max_nat (db.photos.map (fun q => q.id)) + 1) j
           (some (max_nat (db.logical_photos.map (fun l => l.id)) + 1))])
        p (List.mem_append_left _ hp)
      simp only [mk_photo_row, List.map_append, List.map_cons, List.map_nil] at h2
      simp at hb
      rcases hb with hb | hb
      · simp [mk_photo_row] at hb
        omega
      · simp [mk_photo_row] at hb
        omega

/-- persist_groups_to_db, one well-shaped group over fresh paths: the stored
    members are appended as rows (reloading to the members themselves, up to
    recomputed base name and dir), old rows are untouched, one logical photo
    row for the project is appended and all new rows link to it, and rowids
    stay distinct. -/
theorem persist_one_fresh (db : DB) (g : LogicalGroup) (idx : Nat)
    (sid_map : List (Option Nat)) (pid : Nat) (ex : Option (List PathM)) (imp err sid : Nat)
    (hsid : sid_map.getD idx none = some sid)
    (hshape : g.is_pair = false → g.jpeg = none ∨ g.raw = none)
    (hrep : (representative g).isSome = true)
    (hfreshp : ∀ p ∈ db.photos, ∀ f ∈ group_members g, ¬p.path = f.path)
    (hmnd : ((group_members g).map (fun f => f.path)).Nodup)
    (hids : (db.photos.map (fun p => p.id)).Nodup) :
    ∃ db2 imp2 lpid,
      persist_one db g idx sid_map pid ex imp err = Except.ok (db2, imp2, err)
      ∧ db2.photos.map photo_file
          = db.photos.map photo_file ++ (group_members g).map canon_file
      ∧ (∀ p ∈ db.photos, p ∈ db2.photos)
      ∧ (∀ p ∈ db2.photos, p ∈ db.photos ∨ p.logical_photo_id = some lpid)
      ∧ db2.logical_photos = db.logical_photos
          ++ [{ id := lpid, project_id := pid,
                representative_photo_id := max_nat (db.photos.map (fun p => p.id)) + 1,
                stack_id := some sid }]
      ∧ (db2.photos.map (fun p => p.id)).Nodup
      ∧ db2.stack_rows = db.stack_rows := by
  rcases g with ⟨gj, gr, gp⟩
  rcases gj with _ | j
  · rcases gr with _ | r
    · simp [representative] at hrep
    · have hother : ({ jpeg := none, raw := some r, is_pair := gp } :
          LogicalGroup).is_pair = true →
          ((({ jpeg := none, raw := some r, is_pair := gp } : LogicalGroup).raw.filter
              (fun x => decide (¬x.path = r.path))).or
            (({ jpeg := none, raw := some r, is_pair := gp } : LogicalGroup).jpeg.filter
              (fun x => decide (¬x.path = r.path)))) = none := by
        intro _
        simp [Option.filter]
      have hkey : persist_one db { jpeg := none, raw := some r, is_pair := gp }
          idx sid_map pid ex imp err
          = Except.ok (single_insert_db db r pid sid,
              (match ex with
               | some exl => if r.path ∈ exl then imp else imp + 1
               | none => imp), err) :=
        persist_one_single db { jpeg := none, raw := some r, is_pair := gp }
          idx sid_map pid ex imp err sid hsid r rfl rfl hother hfreshp
      obtain ⟨h1, h2, h3, h4⟩ := single_insert_post db r pid sid hids
      exact ⟨single_insert_db db r pid sid, _,
        max_nat (db.logical_photos.map (fun l => l.id)) + 1, hkey,
        by simpa using h1, h2, h3, rfl, h4, rfl⟩
  · rcases gr with _ | r
    · have hother : ({ jpeg := some j, raw := none, is_pair := gp } :
          LogicalGroup).is_pair = true →
          ((({ jpeg := some j, raw := none, is_pair := gp } : LogicalGroup).raw.filter
              (fun x => decide (¬x.path = j.path))).or
            (({ jpeg := some j, raw := none, is_pair := gp } : LogicalGroup).jpeg.filter
              (fun x => decide (¬x.path = j.path)))) = none := by
        intro _
        simp [Option.filter]
      have hkey : persist_one db { jpeg := some j, raw := none, is_pair := gp }
          idx sid_map pid ex imp err
          = Except.ok (single_insert_db db j pid sid,
              (match ex with
               | some exl => if j.path ∈ exl then imp else imp + 1
               | none => imp), err) :=
        persist_one_single db { jpeg := some j, raw := none, is_pair := gp }
          idx sid_map pid ex imp err sid hsid j rfl rfl hother hfreshp
      obtain ⟨h1, h2, h3, h4⟩ := single_insert_post db j pid sid hids
      exact ⟨single_insert_db db j pid sid, _,
        max_nat (db.logical_photos.map (fun l => l.id)) + 1, hkey,
        by simpa using h1, h2, h3, rfl, h4, rfl⟩
    · rcases hgp : gp
      · rcases hshape (by rw [hgp]) with hc | hc <;> simp at hc
      · have hne : ¬r.path = j.path := by
          have : (group_members { jpeg := some j, raw := some r, is_pair := true }).map
              (fun f => f.path) = [j.path, r.path] := rfl
          rw [hgp] at hmnd
          rw [this] at hmnd
          simp at hmnd
          exact fun he => hmnd he.symm
        have hfj : ∀ p ∈ db.photos, ¬p.path = j.path := by
          intro p hp
          exact hfreshp p hp j (by rw [hgp]; simp [group_members])
        have hfr : ∀ p ∈ db.photos, ¬p.path = r.path := by
          intro p hp
          exact hfreshp p hp r (by rw [hgp]; simp [group_members])
        obtain ⟨imp2, hkey0⟩ := persist_one_pair db j r idx sid_map pid ex imp err sid
          hsid hne hfj hfr
        have hkey : persist_one db { jpeg := some j, raw := some r, is_pair := true }
            idx sid_map pid ex imp err
            = Except.ok (pair_insert_db db j r pid sid, imp2, err) := hkey0
        obtain ⟨h1, h2, h3, h4⟩ := pair_insert_post db j r pid sid hids
        subst hgp
        exact ⟨pair_insert_db db j r pid sid, imp2,
          max_nat (db.logical_photos.map (fun l => l.id)) + 1, hkey,
          by simpa using h1, h2, h3, rfl, h4, rfl⟩

/-- persist_groups_to_db over well-shaped groups with fresh, pairwise
    distinct member paths: it succeeds, the photos table grows by exactly
    the members of the groups in order, every row of the result is an old
    row or is linked to a logical photo row of this project, logical photo
    rows are only appended, and rowids stay distinct. -/
theorem persist_spec_fresh :
    ∀ (gs : List (LogicalGroup × Nat)) (db : DB) (sid_map : List (Option Nat))
      (pid : Nat) (ex : Option (List PathM)) (imp err : Nat),
      (∀ gi ∈ gs, (representative gi.1).isSome = true) →
      (∀ gi ∈ gs, gi.1.is_pair = false → gi.1.jpeg = none ∨ gi.1.raw = none) →
      (∀ gi ∈ gs, (sid_map.getD gi.2 none).isSome = true) →
      ((db.photos.map (fun p => p.path)
        ++ (gs.flatMap (fun gi => group_members gi.1)).map (fun f => f.path)).Nodup) →
      ((db.photos.map (fun p => p.id)).Nodup) →
      ∃ dbf impf errf,
        persist_groups_to_db db gs sid_map pid ex imp err = Except.ok (dbf, impf, errf)
        ∧ dbf.photos.map photo_file
            = db.photos.map photo_file
              ++ (gs.flatMap (fun gi => group_members gi.1)).map canon_file
        ∧ (∀ p ∈ dbf.photos, p ∈ db.photos
            ∨ ∃ l ∈ dbf.logical_photos, p.logical_photo_id = some l.id ∧ l.project_id = pid)
        ∧ (∃ newl, dbf.logical_photos = db.logical_photos ++ newl)
        ∧ dbf.stack_rows = db.stack_rows := by
  intro gs
  induction gs with
  | nil =>
    intro db sid_map pid ex imp err _ _ _ _ _
    exact ⟨db, imp, err, rfl, by simp, fun p hp => Or.inl hp, ⟨[], by simp⟩, rfl⟩
  | cons gi rest ih =>
    intro db sid_map pid ex imp err hrep hshape hsid hpaths hids
    obtain ⟨sid, hsid1⟩ := Option.isSome_iff_exists.mp (hsid gi (by simp))
    have hfreshp : ∀ p ∈ db.photos, ∀ f ∈ group_members gi.1, ¬p.path = f.path := by
      intro p hp f hf he
      have hdis := List.disjoint_of_nodup_append hpaths
      exact hdis (List.mem_map_of_mem _ hp)
        (by
          rw [he]
          apply List.mem_map_of_mem
          exact List.mem_flatMap.mpr ⟨gi, by simp, hf⟩)
    have hmnd : ((group_members gi.1).map (fun f => f.path)).Nodup := by
      have h2 := (List.nodup_append.mp hpaths).2.1
      rw [List.flatMap_cons, List.map_append] at h2
      exact (List.nodup_append.mp h2).1
    obtain ⟨db2, imp2, lpid, hkey, h1, hold, hlink, hlps, hids2, hstk⟩ :=
      persist_one_fresh db gi.1 gi.2 sid_map pid ex imp err sid hsid1
        (hshape gi (by simp)) (hrep gi (by simp)) hfreshp hmnd hids
    have hpath2 : db2.photos.map (fun p => p.path)
        = db.photos.map (fun p => p.path)
          ++ (group_members gi.1).map (fun f => f.path) := by
      have e1 : db2.photos.map (fun p => p.path)
          = (db2.photos.map photo_file).map (fun f => f.path) := by
        rw [List.map_map]
        rfl
      rw [e1, h1, List.map_append, List.map_map, List.map_map]
      rfl
    have hpaths2 : (db2.photos.map (fun p => p.path)
        ++ (rest.flatMap (fun gi => group_members gi.1)).map (fun f => f.path)).Nodup := by
      rw [hpath2]
      rw [List.flatMap_cons, List.map_append, ← List.append_assoc] at hpaths
      exact hpaths
    obtain ⟨dbf, impf, errf, hrun, hphotos, hlinkf, hlpsf, hstkf⟩ :=
      ih db2 sid_map pid ex imp2 err
        (fun x hx => hrep x (by simp [hx]))
        (fun x hx => hshape x (by simp [hx]))
        (fun x hx => hsid x (by simp [hx]))
        hpaths2 hids2
    refine ⟨dbf, impf, errf, ?_, ?_, ?_, ?_, ?_⟩
    · simp only [persist_groups_to_db, hkey]
      exact hrun
    · rw [hphotos, h1, List.flatMap_cons, List.map_append, List.append_assoc]
    · intro p hp
      rcases hlinkf p hp with hp2 | hp2
      · rcases hlink p hp2 with hp3 | hp3
        · exact Or.inl hp3
        · right
          obtain ⟨newl, hnewl⟩ := hlpsf
          refine ⟨{ id := lpid, project_id := pid,
                    representative_photo_id := max_nat (db.photos.map (fun p => p.id)) + 1,
                    stack_id := some sid }, ?_, hp3, rfl⟩
          rw [hnewl, hlps]
          simp
      · exact Or.inr hp2
    · obtain ⟨newl, hnewl⟩ := hlpsf
      exact ⟨_, by rw [hnewl, hlps, List.append_assoc]⟩
    · rw [hstkf, hstk]

/-- The non-representative member persist picks for a pair is one of the
    group's members. -/
theorem or_filter_mem (g : LogicalGroup) (q : ScannedFile → Bool) (other : ScannedFile)
    (h : ((g.raw.filter q).or (g.jpeg.filter q)) = some other) :
    other ∈ group_members g := by
  unfold group_members
  rcases hr : g.raw with _ | r <;> rcases hj : g.jpeg with _ | j <;>
    rw [hr, hj] at h
  · simp [Option.filter] at h
  · simp only [Option.filter, Option.none_or] at h
    by_cases hq : q j
    · rw [if_pos hq] at h
      simp at h
      subst h
      simp
    · rw [if_neg hq] at h
      simp at h
  · simp only [Option.filter] at h
    by_cases hq : q r
    · rw [if_pos hq] at h
      simp at h
      subst h
      simp
    · rw [if_neg hq] at h
      simp at h
  · simp only [Option.filter] at h
    by_cases hq : q r
    · rw [if_pos hq] at h
      simp at h
      subst h
      simp
    · rw [if_neg hq] at h
      simp only [Option.none_or] at h
      by_cases hq2 : q j
      · rw [if_pos hq2] at h
        simp at h
        subst h
        simp
      · rw [if_neg hq2] at h
        simp at h

/-- persist_groups_to_db, one group all of whose members are already
    imported paths: it cannot count an import. -/
theorem persist_one_imp_mem (db : DB) (g : LogicalGroup) (idx : Nat)
    (sid_map : List (Option Nat)) (pid : Nat) (exl : List PathM) (imp err : Nat)
    (hrep : (representative g).isSome = true)
    (hmem : ∀ f ∈ group_members g, f.path ∈ exl) :
    ∃ db2 err2, persist_one db g idx sid_map pid (some exl) imp err
      = Except.ok (db2, imp, err2) := by
  unfold persist_one
  rcases hs : sid_map.getD idx none with _ | sid
  · exact ⟨db, err + 1, rfl⟩
  · obtain ⟨rep, hrepe⟩ := Option.isSome_iff_exists.mp hrep
    have hrp : rep.path ∈ exl := hmem rep (rep_mem_members g rep hrepe)
    simp only [hrepe, if_pos hrp]
    rcases hip : g.is_pair
    · simp only [hip, Bool.false_eq_true, if_false]
      exact ⟨_, err, rfl⟩
    · simp only [hip, if_true]
      rcases hoth : ((g.raw.filter (fun x => decide (¬x.path = rep.path))).or
          (g.jpeg.filter (fun x => decide (¬x.path = rep.path)))) with _ | other
      · simp only [hoth]
        exact ⟨_, err, rfl⟩
      · have hop : other.path ∈ exl := hmem other (or_filter_mem g _ other hoth)
        simp only [hoth, if_pos hop]
        exact ⟨_, err, rfl⟩

/-- persist_groups_to_db over groups all of whose members are already
    imported: it succeeds and reports zero new imports (the imported counter
    is returned unchanged). -/
theorem persist_spec_mem :
    ∀ (gs : List (LogicalGroup × Nat)) (db : DB) (sid_map : List (Option Nat))
      (pid : Nat) (exl : List PathM) (imp err : Nat),
      (∀ gi ∈ gs, (representative gi.1).isSome = true) →
      (∀ gi ∈ gs, ∀ f ∈ group_members gi.1, f.path ∈ exl) →
      ∃ dbf errf,
        persist_groups_to_db db gs sid_map pid (some exl) imp err
          = Except.ok (dbf, imp, errf) := by
  intro gs
  induction gs with
  | nil =>
    intro db sid_map pid exl imp err _ _
    exact ⟨db, err, rfl⟩
  | cons gi rest ih =>
    intro db sid_map pid exl imp err hrep hmem
    obtain ⟨db2, err2, hone⟩ := persist_one_imp_mem db gi.1 gi.2 sid_map pid exl imp err
      (hrep gi (by simp)) (hmem gi (by simp))
    obtain ⟨dbf, errf, hrun⟩ := ih db2 sid_map pid exl imp err2
      (fun x hx => hrep x (by simp [hx]))
      (fun x hx => hmem x (by simp [hx]))
    refine ⟨dbf, errf, ?_⟩
    simp only [persist_groups_to_db, hone]
    exact hrun

/-- The ScannedFile the extraction loop builds for a fresh path. -/
def scanned_file_of (exif : PathM → PhotoFormat → ExifOut) (pf : PathM × PhotoFormat) :
    ScannedFile :=
  { path := pf.1, format := pf.2, capture_time := (exif pf.1 pf.2).capture_time,
    camera_model := (exif pf.1 pf.2).camera_model, lens := (exif pf.1 pf.2).lens,
    orientation := (exif pf.1 pf.2).orientation,
    base_name := lower_string pf.1.stem, dir := pf.1.dir }

theorem extract_loop_none (exif : PathM → PhotoFormat → ExifOut) :
    ∀ l : List (PathM × PhotoFormat),
      extract_loop exif [] l = (l.map (scanned_file_of exif), 0) := by
  intro l
  induction l with
  | nil => rfl
  | cons pf rest ih =>
    rcases pf with ⟨p, fmt⟩
    unfold extract_loop
    rw [if_neg (by simp)]
    simp [ih, scanned_file_of]

theorem extract_loop_all (exif : PathM → PhotoFormat → ExifOut) (existing : List PathM) :
    ∀ l : List (PathM × PhotoFormat), (∀ pf ∈ l, pf.1 ∈ existing) →
      extract_loop exif existing l = ([], l.length) := by
  intro l
  induction l with
  | nil => intro _; rfl
  | cons pf rest ih =>
    intro h
    rcases pf with ⟨p, fmt⟩
    unfold extract_loop
    rw [if_pos (h (p, fmt) (by simp))]
    rw [ih (fun x hx => h x (by simp [hx]))]
    simp

/-- When every photo row is linked to one of the project's logical photos,
    the project's path listing is the whole photos table. -/
theorem list_paths_all_linked (db : DB) (pid : Nat)
    (h : ∀ p ∈ db.photos, ∃ l ∈ db.logical_photos,
        p.logical_photo_id = some l.id ∧ l.project_id = pid) :
    list_photo_paths_for_project db pid = db.photos.map (fun p => p.path) := by
  unfold list_photo_paths_for_project
  have hself : db.photos.filter (fun p => db.logical_photos.any (fun l =>
      decide (some l.id = p.logical_photo_id) && decide (l.project_id = pid))) = db.photos := by
    apply List.filter_eq_self.mpr
    intro p hp
    obtain ⟨l, hl, he, hpidl⟩ := h p hp
    apply List.any_eq_true.mpr
    exact ⟨l, hl, by simp [he, hpidl]⟩
  rw [hself]

/-- Members of detected groups are input files. -/
theorem detect_pairs_members_sub (files : List ScannedFile) :
    ∀ g ∈ detect_pairs files, ∀ f ∈ group_members g, f ∈ files := by
  intro g hg f hf
  obtain ⟨k, _, hgk⟩ := List.mem_flatMap.mp hg
  exact List.mem_of_mem_filter (resolve_group_members _ g hgk f hf)

theorem sid_map_getD_isSome : ∀ (l : List Nat) (i : Nat), i < l.length →
    ((l.map some).getD i none).isSome = true := by
  intro l
  induction l with
  | nil =>
    intro i hi
    simp at hi
  | cons a rest ih =>
    intro i hi
    rcases i with _ | i
    · rfl
    · simp only [List.map_cons, List.getD_cons_succ]
      exact ih i (by simpa using hi)

/-- The file list a pipeline run over db feeds into pair detection. -/
def pipeline_all_files (db : DB) (env : PipelineEnv) (pid : Nat) : List ScannedFile :=
  load_existing_scanned_files db
    ++ (extract_loop env.exif (list_photo_paths_for_project db pid)
          (scan_folders env.folders)).1

/-- The assignment a pipeline run over db produces. -/
def pipeline_assigned (db : DB) (env : PipelineEnv) (pid gap : Nat) :
    List (LogicalGroup × Nat) :=
  assign_stacks_by_burst (detect_pairs (pipeline_all_files db env pid)) gap

/-- The stack count a pipeline run over db reports. -/
def pipeline_N (db : DB) (env : PipelineEnv) (pid gap : Nat) : Nat :=
  stacks_generated_of (pipeline_assigned db env pid gap)

/-- The stack rows a pipeline run pre-creates, with their ids. -/
def pipeline_created (db : DB) (env : PipelineEnv) (pid gap : Nat) : DB × List Nat :=
  create_stacks_seeded (clear_stacks_and_logical_photos db pid) pid 0
    (pipeline_N db env pid gap)

/-- The stack id map of a pipeline run. -/
def pipeline_sid_map (db : DB) (env : PipelineEnv) (pid gap : Nat) : List (Option Nat) :=
  if pipeline_N db env pid gap = 0 then [none]
  else (pipeline_created db env pid gap).2.map some

/-- The persisting step of a pipeline run. -/
def pipeline_persist (db : DB) (env : PipelineEnv) (pid gap : Nat) :
    Except Unit (DB × Nat × Nat) :=
  persist_groups_to_db (pipeline_created db env pid gap).1
    (pipeline_assigned db env pid gap) (pipeline_sid_map db env pid gap) pid
    (some (list_photo_paths_for_project db pid)) 0 0

/-- A non-cancelled run is the persisting step packaged with the statistics
    of the scan, extraction, detection and assignment stages. -/
theorem run_pipeline_inner_eq (db : DB) (env : PipelineEnv) (pid gap : Nat)
    (hc : env.cancel = false) :
    run_pipeline_inner db env pid gap
      = (match pipeline_persist db env pid gap with
         | Except.error e => Except.error e
         | Except.ok r =>
           Except.ok (r.1,
             { total_files_scanned := (scan_folders env.folders).length,
               imported := r.2.1,
               skipped_existing := (extract_loop env.exif
                   (list_photo_paths_for_project db pid) (scan_folders env.folders)).2,
               errors := r.2.2,
               pairs_detected := ((detect_pairs (pipeline_all_files db env pid)).filter
                   (fun g => g.is_pair)).length,
               stacks_generated := pipeline_N db env pid gap,
               logical_photos := (pipeline_assigned db env pid gap).length,
               cancelled := false })) := by
  unfold run_pipeline_inner pipeline_persist pipeline_sid_map pipeline_created
    pipeline_N pipeline_assigned pipeline_all_files
  rw [hc]
  simp

theorem create_stacks_seeded_len (db : DB) (pid mb : Nat) :
    ∀ n, (create_stacks_seeded db pid mb n).2.length = n := by
  intro n
  induction n with
  | zero => rfl
  | succ n ih =>
    rw [create_stacks_seeded_succ]
    by_cases hcase : n = 0 ∧ 0 < mb
    · rcases hcase with ⟨hn0, hmb⟩
      subst hn0
      simp [hmb, show (create_stacks_seeded db pid mb 0).2 = [] from rfl]
    · simp [hcase, ih]

/-- A fresh database: no photos, logical photos or stacks yet. -/
def empty_db : DB :=
  { photos := [], logical_photos := [], stack_rows := [] }

/-- The first run over a fresh database: it succeeds, counts all scanned
    files with zero skips, and leaves a photos table whose reload is exactly
    the members of the assigned groups, every row linked to one of the
    project's logical photos. -/
theorem run1_spec (env : PipelineEnv) (pid gap : Nat)
    (hc : env.cancel = false)
    (hnd : ((scan_folders env.folders).map Prod.fst).Nodup) :
    ∃ db1 imp1 err1,
      run_pipeline empty_db env pid gap
        = Except.ok (db1,
            { total_files_scanned := (scan_folders env.folders).length,
              imported := imp1,
              skipped_existing := 0,
              errors := err1,
              pairs_detected := ((detect_pairs (pipeline_all_files empty_db env pid)).filter
                  (fun g => g.is_pair)).length,
              stacks_generated := pipeline_N empty_db env pid gap,
              logical_photos := (pipeline_assigned empty_db env pid gap).length,
              cancelled := false })
      ∧ db1.photos.map photo_file
          = ((pipeline_assigned empty_db env pid gap).flatMap
              (fun gi => group_members gi.1)).map canon_file
      ∧ (∀ p ∈ db1.photos, ∃ l ∈ db1.logical_photos,
          p.logical_photo_id = some l.id ∧ l.project_id = pid) := by
  have h0 : list_photo_paths_for_project empty_db pid = [] := rfl
  have hfiles : pipeline_all_files empty_db env pid
      = (scan_folders env.folders).map (scanned_file_of env.exif) := by
    unfold pipeline_all_files
    rw [h0, extract_loop_none]
    rfl
  have hA : pipeline_assigned empty_db env pid gap
      = assign_stacks_by_burst
          (detect_pairs ((scan_folders env.folders).map (scanned_file_of env.exif))) gap := by
    unfold pipeline_assigned
    rw [hfiles]
  have hfstA : ((pipeline_assigned empty_db env pid gap).map Prod.fst).Perm
      (detect_pairs ((scan_folders env.folders).map (scanned_file_of env.exif))) := by
    rw [hA]
    exact assign_fst_perm _ gap
  have hmemA : ∀ gi ∈ pipeline_assigned empty_db env pid gap,
      gi.1 ∈ detect_pairs ((scan_folders env.folders).map (scanned_file_of env.exif)) := by
    intro gi hgi
    exact hfstA.mem_iff.mp (List.mem_map_of_mem _ hgi)
  have e1 : (pipeline_assigned empty_db env pid gap).flatMap (fun gi => group_members gi.1)
      = ((pipeline_assigned empty_db env pid gap).map Prod.fst).flatMap group_members :=
    (List.flatMap_map _ _ _).symm
  have hperm : ((pipeline_assigned empty_db env pid gap).flatMap
        (fun gi => group_members gi.1)).Perm
      ((scan_folders env.folders).map (scanned_file_of env.exif)) := by
    rw [e1]
    exact (perm_flatMap _ _ _ hfstA).trans (detect_pairs_members_perm _)
  have hfpaths : ((scan_folders env.folders).map (scanned_file_of env.exif)).map
      (fun f => f.path) = (scan_folders env.folders).map Prod.fst := by
    rw [List.map_map]
    rfl
  have hndmem : (((pipeline_assigned empty_db env pid gap).flatMap
      (fun gi => group_members gi.1)).map (fun f => f.path)).Nodup := by
    refine ((hperm.map (fun f => f.path)).nodup_iff).mpr ?_
    rw [hfpaths]
    exact hnd
  obtain ⟨newRows, hrows, _, hlenR, hph, hlp⟩ :=
    create_stacks_seeded_spec (clear_stacks_and_logical_photos empty_db pid) pid 0
      (pipeline_N empty_db env pid gap)
  have hclear : clear_stacks_and_logical_photos empty_db pid = empty_db := rfl
  have hph0 : (pipeline_created empty_db env pid gap).1.photos = [] := by
    unfold pipeline_created
    rw [hph, hclear]
    rfl
  have hlp0 : (pipeline_created empty_db env pid gap).1.logical_photos = [] := by
    unfold pipeline_created
    rw [hlp, hclear]
    rfl
  obtain ⟨dbf, impf, errf, hrun, hphotos, hlinks, hlpsnew, hstk⟩ :=
    persist_spec_fresh (pipeline_assigned empty_db env pid gap)
      (pipeline_created empty_db env pid gap).1
      (pipeline_sid_map empty_db env pid gap) pid
      (some (list_photo_paths_for_project empty_db pid)) 0 0
      (fun gi hgi => (detect_pairs_shape _ gi.1 (hmemA gi hgi)).1)
      (fun gi hgi => (detect_pairs_shape _ gi.1 (hmemA gi hgi)).2)
      (by
        intro gi hgi
        have hlt : gi.2 < pipeline_N empty_db env pid gap :=
          assigned_idx_lt _ gi hgi
        unfold pipeline_sid_map
        rw [if_neg (by omega)]
        exact sid_map_getD_isSome _ gi.2
          (by unfold pipeline_created; rw [create_stacks_seeded_len]; exact hlt))
      (by
        rw [hph0]
        simpa using hndmem)
      (by rw [hph0]; simp)
  refine ⟨dbf, impf, errf, ?_, ?_, ?_⟩
  · show run_pipeline_inner empty_db env pid gap = _
    rw [run_pipeline_inner_eq empty_db env pid gap hc]
    have hpp : pipeline_persist empty_db env pid gap = Except.ok (dbf, impf, errf) := hrun
    rw [hpp]
    have hskip : (extract_loop env.exif (list_photo_paths_for_project empty_db pid)
        (scan_folders env.folders)).2 = 0 := by
      rw [h0, extract_loop_none]
    rw [hskip]
  · rw [hphotos, hph0]
    simp
  · intro p hp
    rcases hlinks p hp with hp2 | hp2
    · rw [hph0] at hp2
      simp at hp2
    · exact hp2

/-- C2: pipeline idempotency.  Starting from a fresh database, running
    run_pipeline twice over unchanged folders (same scan results, same exif
    metadata, distinct paths) succeeds both times; the second run imports
    nothing, skips every one of the N found files, and reports the same
    stacks_generated and logical_photos counts as the first run (which
    skipped nothing). -/
theorem C2_pipeline_idempotent (env : PipelineEnv) (pid gap : Nat)
    (hc : env.cancel = false)
    (hnd : ((scan_folders env.folders).map Prod.fst).Nodup) :
    ∃ db1 s1 db2 s2,
      run_pipeline empty_db env pid gap = Except.ok (db1, s1)
      ∧ run_pipeline db1 env pid gap = Except.ok (db2, s2)
      ∧ s2.imported = 0
      ∧ s2.skipped_existing = (scan_folders env.folders).length
      ∧ s1.skipped_existing = 0
      ∧ s2.total_files_scanned = (scan_folders env.folders).length
      ∧ s2.stacks_generated = s1.stacks_generated
      ∧ s2.logical_photos = s1.logical_photos
      ∧ s2.cancelled = false := by
  obtain ⟨db1, imp1, err1, hrun1, hphotos1, hlinks1⟩ := run1_spec env pid gap hc hnd
  have h0 : list_photo_paths_for_project empty_db pid = [] := rfl
  have hfiles : pipeline_all_files empty_db env pid
      = (scan_folders env.folders).map (scanned_file_of env.exif) := by
    unfold pipeline_all_files
    rw [h0, extract_loop_none]
    rfl
  have hfstA : ((pipeline_assigned empty_db env pid gap).map Prod.fst).Perm
      (detect_pairs ((scan_folders env.folders).map (scanned_file_of env.exif))) := by
    unfold pipeline_assigned
    rw [hfiles]
    exact assign_fst_perm _ gap
  have e1 : (pipeline_assigned empty_db env pid gap).flatMap (fun gi => group_members gi.1)
      = ((pipeline_assigned empty_db env pid gap).map Prod.fst).flatMap group_members :=
    (List.flatMap_map _ _ _).symm
  have hperm : ((pipeline_assigned empty_db env pid gap).flatMap
        (fun gi => group_members gi.1)).Perm
      ((scan_folders env.folders).map (scanned_file_of env.exif)) := by
    rw [e1]
    exact (perm_flatMap _ _ _ hfstA).trans (detect_pairs_members_perm _)
  have hfpaths : ((scan_folders env.folders).map (scanned_file_of env.exif)).map
      (fun f => f.path) = (scan_folders env.folders).map Prod.fst := by
    rw [List.map_map]
    rfl
  have hdbpaths : db1.photos.map (fun p => p.path)
      = ((pipeline_assigned empty_db env pid gap).flatMap
          (fun gi => group_members gi.1)).map (fun f => f.path) := by
    have h := congrArg (List.map (fun f : ScannedFile => f.path)) hphotos1
    rw [List.map_map, List.map_map] at h
    exact h
  have hex2 : list_photo_paths_for_project db1 pid = db1.photos.map (fun p => p.path) :=
    list_paths_all_linked db1 pid hlinks1
  have hmempath : ∀ pf ∈ scan_folders env.folders,
      pf.1 ∈ list_photo_paths_for_project db1 pid := by
    intro pf hpf
    rw [hex2, hdbpaths]
    apply ((hperm.map (fun f => f.path)).mem_iff).mpr
    rw [hfpaths]
    exact List.mem_map_of_mem _ hpf
  have hext2 : extract_loop env.exif (list_photo_paths_for_project db1 pid)
      (scan_folders env.folders) = ([], (scan_folders env.folders).length) :=
    extract_loop_all _ _ _ hmempath
  have hcanonid : ((pipeline_assigned empty_db env pid gap).flatMap
        (fun gi => group_members gi.1)).map canon_file
      = (pipeline_assigned empty_db env pid gap).flatMap (fun gi => group_members gi.1) := by
    have h := List.map_congr_left
      (l := (pipeline_assigned empty_db env pid gap).flatMap (fun gi => group_members gi.1))
      (f := canon_file) (g := id)
      (by
        intro f hf
        obtain ⟨pf, _, hfe⟩ := List.mem_map.mp (hperm.mem_iff.mp hf)
        rw [← hfe]
        rfl)
    simpa using h
  have hfiles2 : pipeline_all_files db1 env pid
      = (pipeline_assigned empty_db env pid gap).flatMap (fun gi => group_members gi.1) := by
    unfold pipeline_all_files
    rw [hext2, load_existing_eq_map, hphotos1, hcanonid]
    simp
  have hfiles2perm : (pipeline_all_files db1 env pid).Perm
      ((scan_folders env.folders).map (scanned_file_of env.exif)) := by
    rw [hfiles2]
    exact hperm
  have hgp : (detect_pairs (pipeline_all_files db1 env pid)).Perm
      (detect_pairs ((scan_folders env.folders).map (scanned_file_of env.exif))) :=
    detect_pairs_perm _ _ hfiles2perm
  have hinv := assign_perm_invariants (detect_pairs (pipeline_all_files db1 env pid))
    (detect_pairs ((scan_folders env.folders).map (scanned_file_of env.exif))) gap hgp
  have hN : pipeline_N db1 env pid gap = pipeline_N empty_db env pid gap := by
    unfold pipeline_N pipeline_assigned
    rw [hfiles]
    exact hinv.1
  have hLen : (pipeline_assigned db1 env pid gap).length
      = (pipeline_assigned empty_db env pid gap).length := by
    unfold pipeline_assigned
    rw [hfiles]
    exact hinv.2
  have hfstA2 : ((pipeline_assigned db1 env pid gap).map Prod.fst).Perm
      (detect_pairs (pipeline_all_files db1 env pid)) :=
    assign_fst_perm _ gap
  obtain ⟨dbf2, errf2, hrun2⟩ :=
    persist_spec_mem (pipeline_assigned db1 env pid gap)
      (pipeline_created db1 env pid gap).1 (pipeline_sid_map db1 env pid gap) pid
      (list_photo_paths_for_project db1 pid) 0 0
      (fun gi hgi => (detect_pairs_shape _ gi.1
        (hfstA2.mem_iff.mp (List.mem_map_of_mem _ hgi))).1)
      (by
        intro gi hgi f hf
        have hfmem : f ∈ pipeline_all_files db1 env pid :=
          detect_pairs_members_sub _ gi.1
            (hfstA2.mem_iff.mp (List.mem_map_of_mem _ hgi)) f hf
        rw [hfiles2] at hfmem
        rw [hex2, hdbpaths]
        exact List.mem_map_of_mem _ hfmem)
  refine ⟨db1,
    { total_files_scanned := (scan_folders env.folders).length,
      imported := imp1, skipped_existing := 0, errors := err1,
      pairs_detected := ((detect_pairs (pipeline_all_files empty_db env pid)).filter
          (fun g => g.is_pair)).length,
      stacks_generated := pipeline_N empty_db env pid gap,
      logical_photos := (pipeline_assigned empty_db env pid gap).length,
      cancelled := false },
    dbf2,
    { total_files_scanned := (scan_folders env.folders).length,
      imported := 0, skipped_existing := (scan_folders env.folders).length,
      errors := errf2,
      pairs_detected := ((detect_pairs (pipeline_all_files db1 env pid)).filter
          (fun g => g.is_pair)).length,
      stacks_generated := pipeline_N db1 env pid gap,
      logical_photos := (pipeline_assigned db1 env pid gap).length,
      cancelled := false },
    hrun1, ?_, rfl, rfl, rfl, rfl, hN, hLen, rfl⟩
  show run_pipeline_inner db1 env pid gap = _
  rw [run_pipeline_inner_eq db1 env pid gap hc]
  have hpp : pipeline_persist db1 env pid gap = Except.ok (dbf2, 0, errf2) := hrun2
  rw [hpp, hext2]

/-- A concrete one-file, never-cancelled pipeline environment. -/
def c2env : PipelineEnv :=
  { folders := [[({ dir := "d", stem := "a", ext := "jpg" }, PhotoFormat.jpeg)]],
    exif := fun _ _ => { capture_time := some 5, camera_model := none,
                         lens := none, orientation := none },
    cancel := false }

/-- Witness for C2: the double run over one concrete file. -/
theorem C2_pipeline_idempotent_witness :
    ∃ db1 s1 db2 s2,
      run_pipeline empty_db c2env 1 3 = Except.ok (db1, s1)
      ∧ run_pipeline db1 c2env 1 3 = Except.ok (db2, s2)
      ∧ s2.imported = 0
      ∧ s2.skipped_existing = (scan_folders c2env.folders).length
      ∧ s1.skipped_existing = 0
      ∧ s2.total_files_scanned = (scan_folders c2env.folders).length
      ∧ s2.stacks_generated = s1.stacks_generated
      ∧ s2.logical_photos = s1.logical_photos
      ∧ s2.cancelled = false :=
  C2_pipeline_idempotent c2env 1 3 rfl (by decide)
